import Mathlib

/-!
Verification of the board-simulation core of TetanusAttack
(`src/game.rs`, `src/main.rs`), shallowly embedded in Lean 4.

Conventions of the embedding:
* `usize`/`u32` values are modelled as `Nat`; `isize` as `Int`.  All
  arithmetic in the claims stays far below the machine-word bounds, and
  the saturating operations of the source (`saturating_sub`,
  `saturating_add`) map to truncated `Nat` subtraction and `Nat`
  addition respectively.
* `Vec<Option<Block>>` is a `List (Option Block)`.  Rust index reads,
  which panic out of range, are totalised with `List.getD`; the default
  is chosen so that out-of-range behaves like the guard that protects
  the read in the source (`none` for cell reads, `true` for
  visited-flag reads).  `List.set` out of range is a no-op, matching
  the fact that the source never writes out of range.
* Functions that mutate `self` and return a value are modelled as
  functions returning the pair (result, new state).
-/

namespace TetanusAttack

/-- Colors of normal blocks (game.rs `BlockColor`). -/
inductive BlockColor
  | Red
  | Green
  | Blue
  | Yellow
  | Purple
deriving DecidableEq, Repr

/-- A block: a colored normal block or a garbage block (game.rs `Block`). -/
inductive Block
  | Normal (color : BlockColor)
  | Garbage (cracked : Bool)
deriving DecidableEq, Repr

/-- game.rs `Block::color`. -/
def Block.color : Block → Option BlockColor
  | .Normal c => some c
  | .Garbage _ => none

/-- game.rs `Block::is_garbage`. -/
def Block.isGarbage : Block → Bool
  | .Normal _ => false
  | .Garbage _ => true

/-- game.rs `Grid`: a `width`×`height` board stored row-major,
`idx x y = y*width + x`, row 0 at the bottom. -/
structure Grid where
  width : Nat
  height : Nat
  cells : List (Option Block)
deriving DecidableEq, Repr

/-- game.rs `Grid::idx`. -/
def Grid.idx (g : Grid) (x y : Nat) : Nat := y * g.width + x

/-- game.rs `Grid::get` (reads panic out of range in Rust; totalised
with default `none`). -/
def Grid.get (g : Grid) (x y : Nat) : Option Block :=
  g.cells.getD (g.idx x y) none

/-- game.rs `Grid::set`. -/
def Grid.setCell (g : Grid) (x y : Nat) (b : Option Block) : Grid :=
  { g with cells := g.cells.set (g.idx x y) b }

/-- game.rs `Grid::new`. -/
def Grid.new (width height : Nat) : Grid :=
  { width := width, height := height, cells := List.replicate (width * height) none }

/-! ### Cursor (game.rs `Cursor`) -/
structure Cursor where
  x : Nat
  y : Nat
deriving DecidableEq, Repr

/-- Rust `clamp` on `isize`. -/
def rustClamp (v lo hi : Int) : Int :=
  if v < lo then lo else if hi < v then hi else v

/-- game.rs `Cursor::move_by`: returns (changed, new cursor). -/
def Cursor.move_by (c : Cursor) (dx dy : Int) (width height : Nat) : Bool × Cursor :=
  if width < 2 ∨ height = 0 then (false, c)
  else
    let max_x := width - 2
    let max_y := height - 1
    let nx := (rustClamp ((c.x : Int) + dx) 0 (max_x : Int)).toNat
    let ny := (rustClamp ((c.y : Int) + dy) 0 (max_y : Int)).toNat
    let changed := decide (nx ≠ c.x) || decide (ny ≠ c.y)
    (changed, { x := nx, y := ny })

/-! ### Garbage scoring (main.rs `add_garbage_for_clear`) -/
/-- main.rs `GARBAGE_CHAIN_BONUS`. -/
def GARBAGE_CHAIN_BONUS : Nat := 2

/-- main.rs `GARBAGE_CHAIN_CAP`. -/
def GARBAGE_CHAIN_CAP : Nat := 24

/-- The fields of main.rs `PlayerState` that `add_garbage_for_clear`
reads and writes. -/
structure PlayerGarbage where
  chain_index : Nat
  garbage_outgoing : Nat
deriving DecidableEq, Repr

/-- main.rs `add_garbage_for_clear` (u32 `saturating_sub` is `Nat`
subtraction). -/
def add_garbage_for_clear (p : PlayerGarbage) (cleared groups : Nat) : PlayerGarbage :=
  let combo_units := cleared - 3
  let multi_units := groups - 1
  let chain_units :=
    if 1 < p.chain_index then GARBAGE_CHAIN_BONUS * (p.chain_index - 1) else 0
  let total := combo_units + multi_units + chain_units
  if cleared < 4 ∧ p.chain_index < 2 then p
  else if total = 0 then p
  else
    let remaining := GARBAGE_CHAIN_CAP - p.garbage_outgoing
    if remaining = 0 then p
    else { p with garbage_outgoing := p.garbage_outgoing + min total remaining }

/-! ### Two-player garbage resolution (main.rs `resolve_garbage`)

`resolve_garbage` first moves each player's finished chain's outgoing
garbage to the opponent's incoming counter, then cancels the smaller
incoming amount out of both counters, and only then calls
`apply_incoming_garbage` on each board.  The counter pipeline (the part
before `apply_incoming_garbage`) is embedded here. -/
/-- The fields of main.rs `PlayerState` that the counter pipeline of
`resolve_garbage` touches. -/
structure GPlayer where
  chain_ended : Bool
  garbage_outgoing : Nat
  garbage_incoming : Nat
deriving DecidableEq, Repr

/-- One `if players.pX.chain_ended { ... }` block of main.rs
`resolve_garbage`: moves `p`'s outgoing garbage to the opponent's
incoming counter and lowers the flag. -/
def transfer_outgoing (p opp : GPlayer) : GPlayer × GPlayer :=
  if p.chain_ended then
    let moved :=
      if 0 < p.garbage_outgoing then
        ({ p with garbage_outgoing := 0 },
         { opp with garbage_incoming := opp.garbage_incoming + p.garbage_outgoing })
      else (p, opp)
    ({ moved.1 with chain_ended := false }, moved.2)
  else (p, opp)

/-- The counter pipeline of main.rs `resolve_garbage`: both chain-end
transfers, then mutual cancellation of incoming garbage.  The result is
the pair of counter states handed to `apply_incoming_garbage`. -/
def resolve_garbage_counters (p1 p2 : GPlayer) : GPlayer × GPlayer :=
  let t1 := transfer_outgoing p1 p2
  let t2 := transfer_outgoing t1.2 t1.1
  let q1 := t2.2
  let q2 := t2.1
  let cancel := min q1.garbage_incoming q2.garbage_incoming
  if 0 < cancel then
    ({ q1 with garbage_incoming := q1.garbage_incoming - cancel },
     { q2 with garbage_incoming := q2.garbage_incoming - cancel })
  else (q1, q2)

/-! ### Swap (game.rs `SwapCmd`, `Grid::swap`, `Grid::swap_in_bounds`) -/
/-- game.rs `SwapCmd` (field `by` renamed `by'`: `by` is reserved in Lean). -/
structure SwapCmd where
  ax : Nat
  ay : Nat
  bx : Nat
  by' : Nat
deriving DecidableEq, Repr

/-- game.rs `SwapCmd::right_of`. -/
def SwapCmd.right_of (x y : Nat) : SwapCmd :=
  { ax := x, ay := y, bx := x + 1, by' := y }

/-- game.rs `Grid::swap` (`Vec::swap` on the two indices). -/
def Grid.swapCells (g : Grid) (ax ay bx by' : Nat) : Grid :=
  let a := g.idx ax ay
  let b := g.idx bx by'
  { g with cells := (g.cells.set a (g.cells.getD b none)).set b (g.cells.getD a none) }

/-- game.rs `Grid::swap_in_bounds`: refuses (false, unchanged) when a
coordinate is out of range or either cell is garbage. -/
def Grid.swap_in_bounds (g : Grid) (cmd : SwapCmd) : Bool × Grid :=
  if g.width ≤ cmd.ax ∨ g.width ≤ cmd.bx ∨ g.height ≤ cmd.ay ∨ g.height ≤ cmd.by' then
    (false, g)
  else if ((g.get cmd.ax cmd.ay).map Block.isGarbage).getD false
      || ((g.get cmd.bx cmd.by').map Block.isGarbage).getD false then
    (false, g)
  else
    (true, g.swapCells cmd.ax cmd.ay cmd.bx cmd.by')

/-! ### Generic machinery for sequences of `List.set` writes -/
/-- Apply a sequence of index/value writes to a list, left to right. -/
def applyWrites {α : Type} (cs : List α) (ws : List (Nat × α)) : List α :=
  ws.foldl (fun c w => c.set w.1 w.2) cs

/-! ### Garbage row insertion (game.rs `Grid::insert_garbage_rows_from_top`) -/
/-- game.rs `Grid::insert_garbage_rows_from_top`: returns (result, new
grid).  `rows` are boolean masks, one per inserted row; input row `i`
lands at `y = height - rows.len() + i`. -/
def Grid.insert_garbage_rows_from_top (g : Grid) (rows : List (List Bool)) : Bool × Grid :=
  if rows.isEmpty then (true, g)
  else if g.height < rows.length then (false, g)
  else if rows.any (fun row => decide (row.length ≠ g.width)) then (false, g)
  else
    let start_y := g.height - rows.length
    if (List.range rows.length).any (fun ri =>
        (List.range g.width).any (fun x =>
          (rows.getD ri []).getD x false && (g.get x (start_y + ri)).isSome)) then
      (false, g)
    else
      let cells' := (List.range rows.length).foldl (fun cs ri =>
        (List.range g.width).foldl (fun cs2 x =>
          if (rows.getD ri []).getD x false then
            cs2.set ((start_y + ri) * g.width + x) (some (Block.Garbage false))
          else cs2) cs) g.cells
      (true, { g with cells := cells' })

/-! ### Nested loop writes as flat write sequences -/
/-- The row-major traversal order `(ri, x)` of a nested loop. -/
def loopPairs (n w : Nat) : List (Nat × Nat) :=
  (List.range n).flatMap (fun ri => (List.range w).map (fun x => (ri, x)))

/-! ### Anti-match color choice (game.rs `Grid::would_create_match`,
`Grid::fill_test_pattern`) -/
/-- game.rs `Grid::would_create_match`: checks whether placing `color`
at `(x, y)` would complete one of the patterns left-left, right-right,
left-right (horizontal) or up-up (vertical).  Note the source checks no
downward pattern. -/
def Grid.would_create_match (g : Grid) (x y : Nat) (color : BlockColor) : Bool :=
  let eqc := fun (o : Option Block) =>
    ((o.bind Block.color).map (fun b => decide (b = color))).getD false
  let left1 := if 1 ≤ x then g.get (x - 1) y else none
  let left2 := if 2 ≤ x then g.get (x - 2) y else none
  let right1 := if x + 1 < g.width then g.get (x + 1) y else none
  let right2 := if x + 2 < g.width then g.get (x + 2) y else none
  let horiz_left := eqc left1 && eqc left2
  let horiz_right := eqc right1 && eqc right2
  let horiz_split := eqc left1 && eqc right1
  if horiz_left || horiz_right || horiz_split then true
  else if y + 2 < g.height then eqc (g.get x (y + 1)) && eqc (g.get x (y + 2))
  else false

/-- The retry loop body of game.rs `Grid::fill_test_pattern` (also used
by `push_bottom_row` and `convert_cracked_garbage`): starting from the
current draw `c`, redraw while `would_create_match` holds, at most
`fuel` (= 10 in the source) times.  The random stream is abstracted as
`rng : Nat → BlockColor` indexed by a draw counter. -/
def retryLoop (g : Grid) (x y : Nat) (rng : Nat → BlockColor) :
    Nat → Nat → BlockColor → BlockColor × Nat
  | 0, k, c => (c, k)
  | fuel + 1, k, c =>
    if g.would_create_match x y c then retryLoop g x y rng fuel (k + 1) (rng k)
    else (c, k)

/-- One cell's color choice in game.rs `Grid::fill_test_pattern`:
draw, then retry up to 10 times.  Returns the color and the next draw
counter. -/
def fillCellColor (g : Grid) (x y : Nat) (rng : Nat → BlockColor) (k : Nat) :
    BlockColor × Nat :=
  retryLoop g x y rng 10 (k + 1) (rng k)

/-- game.rs `Grid::fill_test_pattern` with the `ThreadRng` abstracted
as a draw-indexed color stream: fills the bottom `height/2` rows, row
by row, bottom to top, left to right. -/
def Grid.fill_test_pattern (g : Grid) (rng : Nat → BlockColor) : Grid :=
  ((loopPairs (g.height / 2) g.width).foldl
    (fun st p =>
      let c := fillCellColor st.1 p.2 p.1 rng st.2
      (st.1.setCell p.2 p.1 (some (Block.Normal c.1)), c.2))
    (g, 0)).1

/-- The color of the normal block at `(x, y)`, if any. -/
def normColor (g : Grid) (x y : Nat) : Option BlockColor :=
  (g.get x y).bind Block.color

/-- Cells `(s, y)`, `(s+1, y)`, `(s+2, y)` are normal blocks of one
color. -/
def monoH (g : Grid) (s y : Nat) : Prop :=
  (normColor g s y).isSome = true ∧
  normColor g (s + 1) y = normColor g s y ∧
  normColor g (s + 2) y = normColor g s y

/-- Cells `(x, t)`, `(x, t+1)`, `(x, t+2)` are normal blocks of one
color. -/
def monoV (g : Grid) (x t : Nat) : Prop :=
  (normColor g x t).isSome = true ∧
  normColor g x (t + 1) = normColor g x t ∧
  normColor g x (t + 2) = normColor g x t

/-- A horizontal or vertical run of three or more same-colored normal
blocks passes through `(x, y)`: equivalently, some monochrome window of
three consecutive in-bounds cells contains `(x, y)`. -/
def hasRunThrough (g : Grid) (x y : Nat) : Prop :=
  (2 ≤ x ∧ x < g.width ∧ y < g.height ∧ monoH g (x - 2) y) ∨
  (1 ≤ x ∧ x + 1 < g.width ∧ y < g.height ∧ monoH g (x - 1) y) ∨
  (x + 2 < g.width ∧ y < g.height ∧ monoH g x y) ∨
  (2 ≤ y ∧ y < g.height ∧ x < g.width ∧ monoV g x (y - 2)) ∨
  (1 ≤ y ∧ y + 1 < g.height ∧ x < g.width ∧ monoV g x (y - 1)) ∨
  (y + 2 < g.height ∧ x < g.width ∧ monoV g x y)

instance (g : Grid) (s y : Nat) : Decidable (monoH g s y) := by
  unfold monoH
  infer_instance

instance (g : Grid) (x t : Nat) : Decidable (monoV g x t) := by
  unfold monoV
  infer_instance

instance (g : Grid) (x y : Nat) : Decidable (hasRunThrough g x y) := by
  unfold hasRunThrough
  infer_instance

/-! ### Gravity (game.rs `Grid::apply_gravity_step`, `Grid::apply_gravity`,
`Grid::has_falling_garbage`)

The flood fill over garbage cells appears twice in the source with
textually identical bodies (once over the snapshot in
`apply_gravity_step`, once over the live cells in
`has_falling_garbage`); it is embedded once, parameterised by the cell
array it reads.  The stack-based loop is embedded with explicit fuel;
`floodFuel` below exceeds the loop's decreasing measure
`2 * (number of unvisited flags) + stack length`, so the fuel never
runs out (see `scan_floodFuel_enough`). -/
/-- Number of unvisited flags. -/
def countFalse (l : List Bool) : Nat := l.count false

/-- Neighbor candidates of a cell in source order (left, right, down,
up) with their bounds guards (`wrapping_sub` on `usize` is harmless
here because the guard is false whenever the subtraction would wrap,
exactly as in the source; `Nat` subtraction matches). -/
def neighborList (w h : Nat) (c : Nat × Nat) : List (Nat × Nat × Bool) :=
  [(c.1 - 1, c.2, decide (0 < c.1)),
   (c.1 + 1, c.2, decide (c.1 + 1 < w)),
   (c.1, c.2 - 1, decide (0 < c.2)),
   (c.1, c.2 + 1, decide (c.2 + 1 < h))]

/-- Visit one neighbor candidate `(nx, ny, ok)`: if its guard holds, it
is unvisited and holds garbage in `snap`, mark it visited and push it
on the stack.  Visited reads are totalised with default `true` (the
source read would panic out of range; pushes only ever target in-range
garbage cells). -/
def visitNb (w : Nat) (snap : List (Option Block))
    (st : List Bool × List (Nat × Nat)) (n : Nat × Nat × Bool) :
    List Bool × List (Nat × Nat) :=
  if n.2.2 then
    let nidx := n.2.1 * w + n.1
    if st.1.getD nidx true then st
    else
      match snap.getD nidx none with
      | some (Block.Garbage _) => (st.1.set nidx true, (n.1, n.2.1) :: st.2)
      | _ => st
  else st

/-- The flood-fill loop: pop a cell off the stack, append it to the
component, push its unvisited garbage neighbors.  Returns the final
visited flags and the component. -/
def floodLoop (w h : Nat) (snap : List (Option Block)) :
    Nat → List Bool → List (Nat × Nat) → List (Nat × Nat) →
    List Bool × List (Nat × Nat)
  | 0, visited, _, comp => (visited, comp)
  | _ + 1, visited, [], comp => (visited, comp)
  | fuel + 1, visited, cell :: rest, comp =>
    let st := (neighborList w h cell).foldl (visitNb w snap) (visited, rest)
    floodLoop w h snap fuel st.1 st.2 (comp ++ [cell])

/-- Fuel that the flood-fill loop can never exhaust. -/
def floodFuel (snap : List (Option Block)) : Nat := 2 * snap.length + 2

/-- One step of the outer component scan: seed a flood fill at each
yet-unvisited garbage cell `p = (x, y)`. -/
def scanStep (w h : Nat) (snap : List (Option Block))
    (st : List Bool × List (List (Nat × Nat))) (p : Nat × Nat) :
    List Bool × List (List (Nat × Nat)) :=
  let idx := p.2 * w + p.1
  if st.1.getD idx true then st
  else
    match snap.getD idx none with
    | some (Block.Garbage _) =>
      let fl := floodLoop w h snap (floodFuel snap) (st.1.set idx true) [p] []
      (fl.1, st.2 ++ [fl.2])
    | _ => st

/-- The scan traversal order `(x, y)`, `y` outer (bottom row first),
`x` inner. -/
def scanPairs (w h : Nat) : List (Nat × Nat) :=
  (List.range h).flatMap (fun y => (List.range w).map (fun x => (x, y)))

/-- The garbage connected-component scan shared by the source's
`apply_gravity_step` and `has_falling_garbage`. -/
def findGarbageComponents (w h : Nat) (snap : List (Option Block)) :
    List (List (Nat × Nat)) :=
  ((scanPairs w h).foldl (scanStep w h snap) (List.replicate snap.length false, [])).2

/-- The can-fall test of a garbage component (identical in
`apply_gravity_step` and `has_falling_garbage`): no cell at row 0, and
the cell below each component cell (in `snap`) is empty or belongs to
the same component.  The source's `in_component` boolean array is the
membership test over the component's indices. -/
def canFall (w : Nat) (snap : List (Option Block)) (comp : List (Nat × Nat)) : Bool :=
  comp.all (fun cell =>
    decide (cell.2 ≠ 0) &&
      (!(snap.getD ((cell.2 - 1) * w + cell.1) none).isSome
        || comp.any (fun d => decide (d.2 * w + d.1 = (cell.2 - 1) * w + cell.1))))

/-- game.rs `Grid::has_falling_garbage`: scans the components of the
live cells, returning true as soon as one can fall. -/
def Grid.has_falling_garbage (g : Grid) : Bool :=
  (findGarbageComponents g.width g.height g.cells).any (canFall g.width g.cells)

/-- The moves of one falling component: each cell moves to the cell
below, carrying its block (`snapshot[from].unwrap()` is modelled with
`Option.map`; every component cell holds garbage, so the map never
skips).  A move is (from-index, to-index, block). -/
def componentMoves (w : Nat) (snap : List (Option Block)) (comp : List (Nat × Nat)) :
    List (Nat × Nat × Block) :=
  comp.filterMap (fun cell =>
    (snap.getD (cell.2 * w + cell.1) none).map
      (fun b => (cell.2 * w + cell.1, ((cell.2 - 1) * w + cell.1, b))))

/-- One candidate normal-block move at `(x, y)`: present exactly when
the snapshot holds a normal block there and the snapshot cell below is
empty. -/
def normalEntry (w : Nat) (snap : List (Option Block)) (x y : Nat) :
    Option (Nat × Nat × Block) :=
  match snap.getD (y * w + x) none with
  | some (Block.Normal c) =>
    if (snap.getD ((y - 1) * w + x) none).isSome then none
    else some (y * w + x, ((y - 1) * w + x, Block.Normal c))
  | _ => none

/-- The normal-block moves of `apply_gravity_step` (`x` outer,
`y` from 1 to `h - 1`): a normal block at `y ≥ 1` falls one cell when
the snapshot cell below it is empty. -/
def normalMoves (w h : Nat) (snap : List (Option Block)) : List (Nat × Nat × Block) :=
  (List.range w).flatMap (fun x =>
    (List.range (h - 1)).filterMap (fun i => normalEntry w snap x (i + 1)))

/-- The garbage moves of `apply_gravity_step`: every cell of every
qualifying component falls together. -/
def garbageMoves (w h : Nat) (snap : List (Option Block)) : List (Nat × Nat × Block) :=
  ((findGarbageComponents w h snap).filter (canFall w snap)).flatMap
    (componentMoves w snap)

/-- game.rs `Grid::apply_gravity_step`: collects the normal and
garbage moves against the pre-step snapshot, then (when any exist)
clears every move source and writes every move target.  Returns
(moved, new grid). -/
def Grid.apply_gravity_step (g : Grid) : Bool × Grid :=
  if g.height < 2 then (false, g)
  else
    let snap := g.cells
    let nm := normalMoves g.width g.height snap
    let gm := garbageMoves g.width g.height snap
    if nm.isEmpty && gm.isEmpty then (false, g)
    else
      let all := nm ++ gm
      let cleared := all.foldl (fun cs m => cs.set m.1 none) snap
      let written := all.foldl (fun cs m => cs.set m.2.1 (some m.2.2)) cleared
      (true, { g with cells := written })

/-- Potential of a board: the sum of the indices of its occupied
cells.  Every move lowers its block's index by `width`, so a moving
gravity step strictly decreases the potential. -/
def gridPot (cells : List (Option Block)) : Nat :=
  ∑ i ∈ Finset.range cells.length, if (cells.getD i none).isSome then i else 0

/-- The iteration of game.rs `Grid::apply_gravity`
(`while self.apply_gravity_step() {}`) with explicit fuel. -/
def gravityIter : Nat → Grid → Grid
  | 0, g => g
  | fuel + 1, g =>
    let r := g.apply_gravity_step
    if r.1 then gravityIter fuel r.2 else g

/-- game.rs `Grid::apply_gravity`: the loop terminates because each
moving step strictly decreases `gridPot` (`gravity_step_pot_lt`), so
`gridPot g.cells + 1` steps always suffice (`gravityIter_settles`). -/
def Grid.apply_gravity (g : Grid) : Grid :=
  gravityIter (gridPot g.cells + 1) g

/-! ### Flood-fill invariants -/
/-- Row-major index of a cell. -/
def cellIdx (w : Nat) (c : Nat × Nat) : Nat := c.2 * w + c.1

/-- The cell's coordinates are on the board. -/
def cellInBounds (w h : Nat) (c : Nat × Nat) : Prop := c.1 < w ∧ c.2 < h

/-- Index `i` holds a garbage block in `snap`. -/
def garbAt (snap : List (Option Block)) (i : Nat) : Prop :=
  ∃ cr, snap.getD i none = some (Block.Garbage cr)

/-- Invariant carried through a flood fill for a fixed ambient
component `comp`: all stacked and collected cells are in-bounds garbage
cells marked visited, with pairwise distinct indices. -/
def FloodInv (w h : Nat) (snap : List (Option Block)) (comp : List (Nat × Nat))
    (st : List Bool × List (Nat × Nat)) : Prop :=
  (∀ c ∈ st.2 ++ comp, cellInBounds w h c ∧ garbAt snap (cellIdx w c) ∧
      st.1.getD (cellIdx w c) true = true) ∧
  ((st.2 ++ comp).map (cellIdx w)).Nodup

/-- Invariant of the outer component scan: every collected component
consists of distinct in-bounds garbage cells all marked visited, every
component is nonempty, and distinct components have disjoint index
sets. -/
def ScanInv (w h : Nat) (snap : List (Option Block))
    (st : List Bool × List (List (Nat × Nat))) : Prop :=
  (∀ comp ∈ st.2, ∀ c ∈ comp, cellInBounds w h c ∧ garbAt snap (cellIdx w c) ∧
      st.1.getD (cellIdx w c) true = true) ∧
  (∀ comp ∈ st.2, (comp.map (cellIdx w)).Nodup) ∧
  (∀ comp ∈ st.2, comp ≠ []) ∧
  List.Pairwise (fun c1 c2 => ∀ a ∈ c1, ∀ b ∈ c2, cellIdx w a ≠ cellIdx w b) st.2

/-- The cells produced by the write phase of a moving gravity step. -/
def gravityWritten (g : Grid) : List (Option Block) :=
  (normalMoves g.width g.height g.cells ++ garbageMoves g.width g.height g.cells).foldl
    (fun cs m => cs.set m.2.1 (some m.2.2))
    ((normalMoves g.width g.height g.cells ++ garbageMoves g.width g.height g.cells).foldl
      (fun cs m => cs.set m.1 none) g.cells)

/-! ### Claim C2 -/
/-- 4-adjacency of two cells. -/
def adjacentCells (p q : Nat × Nat) : Prop :=
  (p.1 = q.1 ∧ (p.2 = q.2 + 1 ∨ q.2 = p.2 + 1)) ∨
  (p.2 = q.2 ∧ (p.1 = q.1 + 1 ∨ q.1 = p.1 + 1))

/-! ## Theorems -/

/-! ### Claims C4, C5, C9 -/
/-- C4: `add_garbage_for_clear` computes `combo_units = cleared - 3`,
`multi_units = groups - 1`, `chain_units = 2*(chain_index-1)` when
`chain_index > 1` else `0`, adds their sum to outgoing garbage exactly
when `cleared ≥ 4` or `chain_index ≥ 2` (otherwise nothing changes),
and outgoing garbage is capped at 24 units: contributions beyond the
cap are dropped. -/
theorem add_garbage_for_clear_spec (p : PlayerGarbage) (cleared groups : Nat)
    (hcap : p.garbage_outgoing ≤ GARBAGE_CHAIN_CAP) :
    (4 ≤ cleared ∨ 2 ≤ p.chain_index →
      (add_garbage_for_clear p cleared groups).garbage_outgoing
        = min (p.garbage_outgoing + ((cleared - 3) + (groups - 1)
            + (if 1 < p.chain_index then 2 * (p.chain_index - 1) else 0)))
            GARBAGE_CHAIN_CAP) ∧
    (¬ (4 ≤ cleared ∨ 2 ≤ p.chain_index) →
      add_garbage_for_clear p cleared groups = p) ∧
    (add_garbage_for_clear p cleared groups).garbage_outgoing ≤ GARBAGE_CHAIN_CAP := by
  unfold GARBAGE_CHAIN_CAP at hcap
  simp only [add_garbage_for_clear, GARBAGE_CHAIN_BONUS, GARBAGE_CHAIN_CAP, Nat.min_def]
  refine ⟨fun hcond => ?_, fun hcond => ?_, ?_⟩ <;>
    split_ifs <;> simp_all <;> omega

/-- C4 witness: clearing 4 cells in 1 group at chain index 1 from 0
outgoing garbage yields exactly 1 unit. -/
theorem add_garbage_for_clear_spec_witness :
    ({ chain_index := 1, garbage_outgoing := 0 } : PlayerGarbage).garbage_outgoing
        ≤ GARBAGE_CHAIN_CAP ∧
    (add_garbage_for_clear { chain_index := 1, garbage_outgoing := 0 } 4 1).garbage_outgoing
        = 1 := by
  refine ⟨by decide, ?_⟩
  have h := (add_garbage_for_clear_spec ⟨1, 0⟩ 4 1 (by decide)).1 (by decide)
  rw [h]; decide

/-- C5: in two-player garbage resolution with neither chain just ended,
the smaller incoming amount is subtracted from both incoming counters
(mutual offset) before incoming garbage is applied to either board; in
particular at least one counter is zero afterwards. -/
theorem resolve_garbage_mutual_offset (p1 p2 : GPlayer)
    (h1 : p1.chain_ended = false) (h2 : p2.chain_ended = false) :
    (resolve_garbage_counters p1 p2).1.garbage_incoming
        = p1.garbage_incoming - min p1.garbage_incoming p2.garbage_incoming ∧
    (resolve_garbage_counters p1 p2).2.garbage_incoming
        = p2.garbage_incoming - min p1.garbage_incoming p2.garbage_incoming ∧
    ((resolve_garbage_counters p1 p2).1.garbage_incoming = 0
      ∨ (resolve_garbage_counters p1 p2).2.garbage_incoming = 0) := by
  have htr : ∀ p opp : GPlayer, p.chain_ended = false → transfer_outgoing p opp = (p, opp) := by
    intro p opp h
    unfold transfer_outgoing
    rw [h]
    simp
  simp only [resolve_garbage_counters, htr p1 p2 h1, htr p2 p1 h2, Nat.min_def]
  split_ifs <;> simp_all

/-- C5 witness: P1 incoming 5 and P2 incoming 3 resolve to P1 incoming
2 and P2 incoming 0. -/
theorem resolve_garbage_mutual_offset_witness :
    ((⟨false, 0, 5⟩ : GPlayer).chain_ended = false) ∧
    ((⟨false, 0, 3⟩ : GPlayer).chain_ended = false) ∧
    (resolve_garbage_counters ⟨false, 0, 5⟩ ⟨false, 0, 3⟩).1.garbage_incoming = 2 ∧
    (resolve_garbage_counters ⟨false, 0, 5⟩ ⟨false, 0, 3⟩).2.garbage_incoming = 0 := by
  have h := resolve_garbage_mutual_offset ⟨false, 0, 5⟩ ⟨false, 0, 3⟩ rfl rfl
  refine ⟨rfl, rfl, ?_, ?_⟩
  · rw [h.1]; decide
  · rw [h.2.1]; decide

/-- C9: on a board with `width ≥ 2` and `height ≥ 1`, `Cursor.move_by`
clamps the new position into `[0, width-2] × [0, height-1]` and returns
`true` exactly when the position actually changed; out-of-range deltas
clamp rather than wrap or error. -/
theorem move_by_clamps (c : Cursor) (dx dy : Int) (width height : Nat)
    (hw : 2 ≤ width) (hh : 1 ≤ height) :
    ((c.move_by dx dy width height).2.x ≤ width - 2) ∧
    ((c.move_by dx dy width height).2.y ≤ height - 1) ∧
    ((c.move_by dx dy width height).1 = true ↔
      (c.move_by dx dy width height).2 ≠ c) := by
  obtain ⟨cx, cy⟩ := c
  unfold Cursor.move_by rustClamp
  rw [if_neg (by omega)]
  refine ⟨?_, ?_, ?_⟩
  · simp only []
    split_ifs <;> omega
  · simp only []
    split_ifs <;> omega
  · simp only [Bool.or_eq_true, decide_eq_true_eq, ne_eq, Cursor.mk.injEq, not_and]
    tauto

/-- C9 witness. -/
theorem move_by_clamps_witness :
    (2 ≤ 6 ∧ 1 ≤ 12) ∧
    (((⟨0, 0⟩ : Cursor).move_by (-5) 3 6 12).2.x ≤ 6 - 2 ∧
     ((⟨0, 0⟩ : Cursor).move_by (-5) 3 6 12).2.y ≤ 12 - 1 ∧
     (((⟨0, 0⟩ : Cursor).move_by (-5) 3 6 12).1 = true ↔
       ((⟨0, 0⟩ : Cursor).move_by (-5) 3 6 12).2 ≠ ⟨0, 0⟩)) :=
  ⟨⟨by omega, by omega⟩, move_by_clamps ⟨0, 0⟩ (-5) 3 6 12 (by omega) (by omega)⟩

/-! ### Generic helpers about `List.getD`/`List.set` -/
theorem getD_set_ne {α : Type} {d : α} (l : List α) (i j : Nat) (v : α) (h : i ≠ j) :
    (l.set i v).getD j d = l.getD j d := by
  rw [List.getD_eq_getElem?_getD, List.getD_eq_getElem?_getD, List.getElem?_set_ne h]

theorem getD_set_self {α : Type} {d : α} (l : List α) (i : Nat) (v : α) (h : i < l.length) :
    (l.set i v).getD i d = v := by
  rw [List.getD_eq_getElem?_getD, List.getElem?_set_self h]
  rfl

/-- Row-major index injectivity: coordinates with in-range columns are
recoverable from the index. -/
theorem idx_inj {w x y a b : Nat} (hx : x < w) (ha : a < w)
    (h : y * w + x = b * w + a) : x = a ∧ y = b := by
  have hw : 0 < w := Nat.lt_of_le_of_lt (Nat.zero_le x) hx
  have hxa : x = a := by
    have h1 : (w * y + x) % w = (w * b + a) % w := by
      rw [Nat.mul_comm w y, Nat.mul_comm w b]; rw [h]
    rwa [Nat.mul_add_mod, Nat.mul_add_mod, Nat.mod_eq_of_lt hx, Nat.mod_eq_of_lt ha] at h1
  refine ⟨hxa, ?_⟩
  subst hxa
  have h2 : y * w = b * w := by omega
  exact Nat.eq_of_mul_eq_mul_right hw h2

/-- In-range coordinates give an in-range row-major index. -/
theorem idx_lt {w h x y : Nat} (hx : x < w) (hy : y < h) : y * w + x < w * h := by
  calc y * w + x < y * w + w := by omega
    _ = (y + 1) * w := by ring
    _ ≤ h * w := Nat.mul_le_mul_right w hy
    _ = w * h := Nat.mul_comm h w

/-! ### Claims C6 and C10 -/
/-- C6: `swap_in_bounds` returns false and leaves the board unchanged
whenever either coordinate is out of range or either addressed cell
holds a garbage block (cracked or intact); garbage is never swappable
and the refusal is a false return, not a failure. -/
theorem swap_in_bounds_refusal (g : Grid) (cmd : SwapCmd)
    (h : (g.width ≤ cmd.ax ∨ g.width ≤ cmd.bx ∨ g.height ≤ cmd.ay ∨ g.height ≤ cmd.by')
       ∨ (∃ cr, g.get cmd.ax cmd.ay = some (Block.Garbage cr))
       ∨ (∃ cr, g.get cmd.bx cmd.by' = some (Block.Garbage cr))) :
    g.swap_in_bounds cmd = (false, g) := by
  unfold Grid.swap_in_bounds
  by_cases hoob :
      g.width ≤ cmd.ax ∨ g.width ≤ cmd.bx ∨ g.height ≤ cmd.ay ∨ g.height ≤ cmd.by'
  · rw [if_pos hoob]
  · rw [if_neg hoob]
    rcases h with h | ⟨cr, hg⟩ | ⟨cr, hg⟩
    · exact absurd h hoob
    · rw [if_pos (by rw [hg]; simp [Block.isGarbage])]
    · rw [if_pos (by rw [hg]; simp [Block.isGarbage])]

/-- C6 witness: swapping a garbage cell on a concrete 2×1 board is
refused and the board is unchanged. -/
theorem swap_in_bounds_refusal_witness :
    (∃ cr, (Grid.mk 2 1 [some (Block.Garbage false), some (Block.Normal BlockColor.Red)]).get 0 0
        = some (Block.Garbage cr)) ∧
    (Grid.mk 2 1 [some (Block.Garbage false), some (Block.Normal BlockColor.Red)]).swap_in_bounds
        (SwapCmd.right_of 0 0)
      = (false, Grid.mk 2 1 [some (Block.Garbage false), some (Block.Normal BlockColor.Red)]) :=
  ⟨⟨false, rfl⟩,
   swap_in_bounds_refusal _ _ (Or.inr (Or.inl ⟨false, rfl⟩))⟩

/-- C10: `swap_in_bounds` enforces no adjacency or orientation
requirement: for any in-bounds pair of non-garbage cells (identical,
vertically separated, or arbitrarily distant coordinates included) it
exchanges the two cells, returns true, and leaves every other cell
unchanged. -/
theorem swap_in_bounds_no_adjacency (g : Grid) (cmd : SwapCmd)
    (hlen : g.cells.length = g.width * g.height)
    (hax : cmd.ax < g.width) (hbx : cmd.bx < g.width)
    (hay : cmd.ay < g.height) (hby : cmd.by' < g.height)
    (hga : ∀ cr, g.get cmd.ax cmd.ay ≠ some (Block.Garbage cr))
    (hgb : ∀ cr, g.get cmd.bx cmd.by' ≠ some (Block.Garbage cr)) :
    (g.swap_in_bounds cmd).1 = true ∧
    (g.swap_in_bounds cmd).2.get cmd.ax cmd.ay = g.get cmd.bx cmd.by' ∧
    (g.swap_in_bounds cmd).2.get cmd.bx cmd.by' = g.get cmd.ax cmd.ay ∧
    ∀ x y, x < g.width → y < g.height → ¬(x = cmd.ax ∧ y = cmd.ay) →
      ¬(x = cmd.bx ∧ y = cmd.by') →
      (g.swap_in_bounds cmd).2.get x y = g.get x y := by
  have hng : ∀ o : Option Block, (∀ cr, o ≠ some (Block.Garbage cr)) →
      (o.map Block.isGarbage).getD false = false := by
    intro o ho
    match o with
    | none => rfl
    | some (Block.Normal c) => rfl
    | some (Block.Garbage cr) => exact absurd rfl (ho cr)
  have hcond : (((g.get cmd.ax cmd.ay).map Block.isGarbage).getD false
      || ((g.get cmd.bx cmd.by').map Block.isGarbage).getD false) = false := by
    rw [hng _ hga, hng _ hgb]
    rfl
  have hstep : g.swap_in_bounds cmd = (true, g.swapCells cmd.ax cmd.ay cmd.bx cmd.by') := by
    unfold Grid.swap_in_bounds
    rw [if_neg (by omega), hcond]
    simp
  rw [hstep]
  have halen : cmd.ay * g.width + cmd.ax < g.cells.length := by
    rw [hlen]; exact idx_lt hax hay
  have hblen : cmd.by' * g.width + cmd.bx < g.cells.length := by
    rw [hlen]; exact idx_lt hbx hby
  refine ⟨rfl, ?_, ?_, ?_⟩
  · simp only [Grid.swapCells, Grid.get, Grid.idx]
    by_cases hab : cmd.by' * g.width + cmd.bx = cmd.ay * g.width + cmd.ax
    · rw [hab, getD_set_self _ _ _ (by rw [List.length_set]; omega)]
    · rw [getD_set_ne _ _ _ _ hab, getD_set_self _ _ _ halen]
  · simp only [Grid.swapCells, Grid.get, Grid.idx]
    rw [getD_set_self _ _ _ (by rw [List.length_set]; omega)]
  · intro x y hx hy hna hnb
    have hia : y * g.width + x ≠ cmd.ay * g.width + cmd.ax := by
      intro hcon
      exact hna (idx_inj hx hax hcon)
    have hib : y * g.width + x ≠ cmd.by' * g.width + cmd.bx := by
      intro hcon
      exact hnb (idx_inj hx hbx hcon)
    simp only [Grid.swapCells, Grid.get, Grid.idx]
    rw [getD_set_ne _ _ _ _ (Ne.symm hib), getD_set_ne _ _ _ _ (Ne.symm hia)]

/-- C10 witness: on a concrete 3×3 board, swapping the far-apart cells
(0,0) and (2,2) (not the cursor footprint) succeeds and exchanges them. -/
theorem swap_in_bounds_no_adjacency_witness :
    ((Grid.mk 3 3 (some (Block.Normal BlockColor.Red) ::
        List.replicate 7 (none : Option Block) ++ [some (Block.Normal BlockColor.Blue)])).swap_in_bounds
        ⟨0, 0, 2, 2⟩).1 = true ∧
    ((Grid.mk 3 3 (some (Block.Normal BlockColor.Red) ::
        List.replicate 7 (none : Option Block) ++ [some (Block.Normal BlockColor.Blue)])).swap_in_bounds
        ⟨0, 0, 2, 2⟩).2.get 0 0 = some (Block.Normal BlockColor.Blue) := by
  have h := swap_in_bounds_no_adjacency
    (Grid.mk 3 3 (some (Block.Normal BlockColor.Red) ::
        List.replicate 7 (none : Option Block) ++ [some (Block.Normal BlockColor.Blue)]))
    ⟨0, 0, 2, 2⟩ (by decide) (by decide) (by decide) (by decide) (by decide)
    (by decide) (by decide)
  refine ⟨h.1, ?_⟩
  rw [h.2.1]
  decide

theorem applyWrites_nil {α : Type} (cs : List α) : applyWrites cs [] = cs := rfl

theorem applyWrites_cons {α : Type} (cs : List α) (w : Nat × α) (ws : List (Nat × α)) :
    applyWrites cs (w :: ws) = applyWrites (cs.set w.1 w.2) ws := rfl

theorem applyWrites_length {α : Type} (cs : List α) (ws : List (Nat × α)) :
    (applyWrites cs ws).length = cs.length := by
  induction ws generalizing cs with
  | nil => rfl
  | cons w ws ih => rw [applyWrites_cons, ih, List.length_set]

/-- A write sequence leaves untouched indices unchanged. -/
theorem applyWrites_getD_not_mem {α : Type} {d : α} (cs : List α) (ws : List (Nat × α))
    (i : Nat) (h : ∀ w ∈ ws, w.1 ≠ i) :
    (applyWrites cs ws).getD i d = cs.getD i d := by
  induction ws generalizing cs with
  | nil => rfl
  | cons w ws ih =>
    rw [applyWrites_cons, ih _ (fun w hw => h w (List.mem_cons_of_mem _ hw))]
    exact getD_set_ne _ _ _ _ (h w (List.mem_cons_self _ _))

/-- With distinct write indices, each written index holds its written
value afterwards. -/
theorem applyWrites_getD_mem {α : Type} {d : α} (cs : List α) (ws : List (Nat × α))
    (i : Nat) (v : α) (hnd : (ws.map Prod.fst).Nodup) (hmem : (i, v) ∈ ws)
    (hi : i < cs.length) :
    (applyWrites cs ws).getD i d = v := by
  induction ws generalizing cs with
  | nil => exact absurd hmem (List.not_mem_nil _)
  | cons w ws ih =>
    rw [applyWrites_cons]
    rw [List.map_cons, List.nodup_cons] at hnd
    rcases List.mem_cons.mp hmem with heq | hmem'
    · subst heq
      rw [applyWrites_getD_not_mem _ _ _ (fun u hu hcon => by
        refine hnd.1 ?_
        rw [show (i, v).1 = u.1 from hcon.symm]
        exact List.mem_map_of_mem Prod.fst hu)]
      exact getD_set_self _ _ _ hi
    · exact ih _ hnd.2 hmem' (by rw [List.length_set]; exact hi)

/-- If every write stores the same value `v` and some write targets
`i`, the result holds `v` at `i` (no distinctness needed). -/
theorem applyWrites_getD_const {α : Type} {d : α} (cs : List α) (ws : List (Nat × α))
    (i : Nat) (v : α) (hv : ∀ w ∈ ws, w.2 = v) (hmem : ∃ w ∈ ws, w.1 = i)
    (hi : i < cs.length) :
    (applyWrites cs ws).getD i d = v := by
  induction ws generalizing cs with
  | nil => simp at hmem
  | cons w ws ih =>
    rw [applyWrites_cons]
    by_cases htail : ∃ u ∈ ws, u.1 = i
    · exact ih _ (fun u hu => hv u (List.mem_cons_of_mem _ hu)) htail
        (by rw [List.length_set]; exact hi)
    · obtain ⟨u, hu, hui⟩ := hmem
      rcases List.mem_cons.mp hu with heq | hmem'
      · subst heq
        rw [applyWrites_getD_not_mem _ _ _ (fun u' hu' hcon => htail ⟨u', hu', hcon⟩)]
        rw [← hui, ← hv u (List.mem_cons_self _ _)]
        exact getD_set_self _ _ _ (hui ▸ hi)
      · exact absurd ⟨u, hmem', hui⟩ htail

/-- Folding a conditional set over a list is applying the filtered
write sequence. -/
theorem foldl_condSet_eq_applyWrites {α β : Type} (l : List β) (cond : β → Bool)
    (κ : β → Nat) (v : β → α) (cs : List α) :
    l.foldl (fun c p => if cond p then c.set (κ p) (v p) else c) cs
      = applyWrites cs (l.filterMap (fun p => if cond p then some (κ p, v p) else none)) := by
  induction l generalizing cs with
  | nil => rfl
  | cons p l ih =>
    rw [List.foldl_cons, List.filterMap_cons]
    by_cases hc : cond p
    · rw [if_pos hc, if_pos hc, applyWrites_cons, ih]
    · rw [if_neg hc, if_neg hc, ih]

/-- Folding over a flattened list is the nested fold. -/
theorem foldl_flatMap_eq {α β γ : Type} (l : List α) (f : α → List β)
    (g : γ → β → γ) (init : γ) :
    (l.flatMap f).foldl g init = l.foldl (fun acc a => (f a).foldl g acc) init := by
  induction l generalizing init with
  | nil => rfl
  | cons a l ih => rw [List.flatMap_cons, List.foldl_append, List.foldl_cons, ih]

theorem mem_loopPairs {n w : Nat} {p : Nat × Nat} :
    p ∈ loopPairs n w ↔ p.1 < n ∧ p.2 < w := by
  unfold loopPairs
  rw [List.mem_flatMap]
  constructor
  · rintro ⟨ri, hri, hp⟩
    rw [List.mem_map] at hp
    obtain ⟨x, hx, rfl⟩ := hp
    exact ⟨List.mem_range.mp hri, List.mem_range.mp hx⟩
  · rintro ⟨h1, h2⟩
    exact ⟨p.1, List.mem_range.mpr h1, List.mem_map.mpr ⟨p.2, List.mem_range.mpr h2, rfl⟩⟩

theorem loopPairs_nodup (n w : Nat) : (loopPairs n w).Nodup := by
  unfold loopPairs
  rw [List.nodup_flatMap]
  refine ⟨fun ri _ => List.Nodup.map (fun a b h => by simpa using h) (List.nodup_range w), ?_⟩
  have : ∀ a b : Nat, a ≠ b →
      List.Disjoint ((List.range w).map (fun x => (a, x))) ((List.range w).map (fun x => (b, x))) := by
    intro a b hab p hpa hpb
    rw [List.mem_map] at hpa hpb
    obtain ⟨x, _, rfl⟩ := hpa
    obtain ⟨x2, _, heq⟩ := hpb
    exact hab (congrArg Prod.fst heq).symm
  exact List.Pairwise.imp_of_mem (fun {a b} _ _ h => this a b h)
    ((List.pairwise_lt_range n).imp fun h => Nat.ne_of_lt h)

/-- A nested conditional-set loop equals applying the filtered write
sequence over the flattened traversal. -/
theorem nested_foldl_eq_applyWrites {α : Type} (n w : Nat) (mask : Nat → Nat → Bool)
    (κ : Nat → Nat → Nat) (v : α) (cs : List α) :
    (List.range n).foldl (fun c ri => (List.range w).foldl
        (fun c2 x => if mask ri x then c2.set (κ ri x) v else c2) c) cs
      = applyWrites cs ((loopPairs n w).filterMap
          (fun p => if mask p.1 p.2 then some (κ p.1 p.2, v) else none)) := by
  rw [← foldl_condSet_eq_applyWrites (loopPairs n w)
    (fun p => mask p.1 p.2) (fun p => κ p.1 p.2) (fun _ => v) cs]
  unfold loopPairs
  rw [foldl_flatMap_eq]
  simp only [List.foldl_map]

/-- Distinct write targets for a filtered conditional-set sequence with
an injective index map. -/
theorem nodup_writes_of_inj {α : Type} (l : List (Nat × Nat)) (mask : Nat → Nat → Bool)
    (κ : Nat → Nat → Nat) (v : α) (hnd : l.Nodup)
    (hinj : ∀ p ∈ l, ∀ q ∈ l, κ p.1 p.2 = κ q.1 q.2 → p = q) :
    ((l.filterMap (fun p => if mask p.1 p.2 then some (κ p.1 p.2, v) else none)).map
      Prod.fst).Nodup := by
  induction l with
  | nil => exact List.nodup_nil
  | cons p l ih =>
    rw [List.filterMap_cons]
    rw [List.nodup_cons] at hnd
    have ihl := ih hnd.2
      (fun a ha b hb => hinj a (List.mem_cons_of_mem _ ha) b (List.mem_cons_of_mem _ hb))
    by_cases hm : mask p.1 p.2
    · rw [if_pos hm, List.map_cons, List.nodup_cons]
      refine ⟨?_, ihl⟩
      intro hcon
      rw [List.mem_map] at hcon
      obtain ⟨u, hu, hfst⟩ := hcon
      rw [List.mem_filterMap] at hu
      obtain ⟨q, hq, hfq⟩ := hu
      by_cases hmq : mask q.1 q.2
      · rw [if_pos hmq] at hfq
        have hκ : κ q.1 q.2 = κ p.1 p.2 := by
          have hu2 := congrArg Prod.fst (Option.some.inj hfq)
          simp only [] at hu2
          rw [hu2, hfst]
        have hpq := hinj q (List.mem_cons_of_mem _ hq) p (List.mem_cons_self _ _) hκ
        exact hnd.1 (hpq ▸ hq)
      · rw [if_neg hmq] at hfq
        exact absurd hfq (by simp)
    · rw [if_neg hm]
      exact ihl

/-! ### Claim C3 -/
/-- C3: `insert_garbage_rows_from_top` is all-or-nothing.  It returns
false and leaves every cell unchanged when there are more rows than the
board height, some mask has the wrong width, or some masked target cell
is already occupied; otherwise it returns true and sets exactly the
masked cells of the topmost `rows.length` rows (input row `i` landing
at `y = height - rows.length + i`) to intact garbage, leaving all other
cells unchanged. -/
theorem insert_garbage_rows_spec (g : Grid) (rows : List (List Bool))
    (hlen : g.cells.length = g.width * g.height) :
    ((g.height < rows.length ∨ (∃ row ∈ rows, row.length ≠ g.width) ∨
        (∃ ri < rows.length, ∃ x < g.width, (rows.getD ri []).getD x false = true ∧
          (g.get x (g.height - rows.length + ri)).isSome = true)) →
      g.insert_garbage_rows_from_top rows = (false, g)) ∧
    (¬ (g.height < rows.length ∨ (∃ row ∈ rows, row.length ≠ g.width) ∨
        (∃ ri < rows.length, ∃ x < g.width, (rows.getD ri []).getD x false = true ∧
          (g.get x (g.height - rows.length + ri)).isSome = true)) →
      (g.insert_garbage_rows_from_top rows).1 = true ∧
      (∀ x, x < g.width → ∀ y, y < g.height →
        (g.insert_garbage_rows_from_top rows).2.get x y
          = if g.height - rows.length ≤ y ∧
              (rows.getD (y - (g.height - rows.length)) []).getD x false = true
            then some (Block.Garbage false) else g.get x y)) := by
  constructor
  · intro hfail
    unfold Grid.insert_garbage_rows_from_top
    by_cases hemp : rows.isEmpty = true
    · rw [List.isEmpty_iff] at hemp
      subst hemp
      rcases hfail with h | ⟨row, hr, _⟩ | ⟨ri, hri, _⟩
      · simp at h
      · simp at hr
      · simp at hri
    · rw [if_neg hemp]
      by_cases h1 : g.height < rows.length
      · rw [if_pos h1]
      · rw [if_neg h1]
        by_cases h2 : rows.any (fun row => decide (row.length ≠ g.width)) = true
        · rw [if_pos h2]
        · rw [if_neg h2]
          rcases hfail with h | ⟨row, hr, hrw⟩ | ⟨ri, hri, x, hx, hm, hocc⟩
          · exact absurd h h1
          · exact absurd (List.any_eq_true.mpr ⟨row, hr, by simpa using hrw⟩) h2
          · rw [if_pos (List.any_eq_true.mpr ⟨ri, List.mem_range.mpr hri,
              List.any_eq_true.mpr ⟨x, List.mem_range.mpr hx, by rw [hm, hocc]; rfl⟩⟩)]
  · intro hok
    push_neg at hok
    obtain ⟨hA, hB, hC⟩ := hok
    by_cases hemp : rows.isEmpty = true
    · rw [List.isEmpty_iff] at hemp
      subst hemp
      refine ⟨rfl, ?_⟩
      intro x hx y hy
      rw [if_neg]
      · rfl
      · rintro ⟨hc, _⟩
        simp at hc
        omega
    · have hstep : g.insert_garbage_rows_from_top rows
          = (true, { g with cells := (List.range rows.length).foldl (fun cs ri =>
              (List.range g.width).foldl (fun cs2 x =>
                if (rows.getD ri []).getD x false then
                  cs2.set ((g.height - rows.length + ri) * g.width + x)
                    (some (Block.Garbage false))
                else cs2) cs) g.cells }) := by
        unfold Grid.insert_garbage_rows_from_top
        rw [if_neg hemp, if_neg (by omega : ¬ g.height < rows.length), if_neg, if_neg]
        · intro hany
          rw [List.any_eq_true] at hany
          obtain ⟨ri, hri, hinner⟩ := hany
          rw [List.any_eq_true] at hinner
          obtain ⟨x, hx, hand⟩ := hinner
          rw [Bool.and_eq_true] at hand
          exact absurd hand.2 (by
            simp only [Bool.not_eq_true]
            rw [Bool.eq_false_iff]
            exact hC ri (List.mem_range.mp hri) x (List.mem_range.mp hx) hand.1)
        · intro hany
          rw [List.any_eq_true] at hany
          obtain ⟨row, hrow, hd⟩ := hany
          exact (by simpa using hd : row.length ≠ g.width) (hB row hrow)
      rw [hstep]
      refine ⟨rfl, ?_⟩
      intro x hx y hy
      simp only [Grid.get, Grid.idx]
      rw [nested_foldl_eq_applyWrites rows.length g.width
        (fun ri x => (rows.getD ri []).getD x false)
        (fun ri x => (g.height - rows.length + ri) * g.width + x)
        (some (Block.Garbage false)) g.cells]
      have hnle : rows.length ≤ g.height := hA
      by_cases hmask : g.height - rows.length ≤ y ∧
          (rows.getD (y - (g.height - rows.length)) []).getD x false = true
      · rw [if_pos hmask]
        apply applyWrites_getD_mem
        · refine nodup_writes_of_inj (loopPairs rows.length g.width)
            (fun ri x2 => (rows.getD ri []).getD x2 false)
            (fun ri x2 => (g.height - rows.length + ri) * g.width + x2)
            (some (Block.Garbage false)) (loopPairs_nodup _ _) ?_
          intro p hp q hq hκ
          rw [mem_loopPairs] at hp hq
          have := idx_inj hp.2 hq.2 hκ
          have hp1 : p.1 = q.1 := by omega
          exact Prod.ext hp1 this.1
        · rw [List.mem_filterMap]
          refine ⟨(y - (g.height - rows.length), x), ?_, ?_⟩
          · rw [mem_loopPairs]
            exact ⟨by omega, hx⟩
          · rw [if_pos hmask.2]
            have : g.height - rows.length + (y - (g.height - rows.length)) = y := by omega
            rw [this]
        · rw [hlen]
          exact idx_lt hx hy
      · rw [if_neg hmask]
        apply applyWrites_getD_not_mem
        intro u hu
        rw [List.mem_filterMap] at hu
        obtain ⟨p, hp, hfp⟩ := hu
        rw [mem_loopPairs] at hp
        by_cases hmp : (rows.getD p.1 []).getD p.2 false = true
        · rw [if_pos hmp] at hfp
          have hufst : u.1 = (g.height - rows.length + p.1) * g.width + p.2 := by
            have hq := congrArg Prod.fst (Option.some.inj hfp)
            simp only [] at hq
            exact hq.symm
          rw [hufst]
          intro hcon
          have hinj := idx_inj hp.2 hx hcon
          refine hmask ⟨by omega, ?_⟩
          have hri : y - (g.height - rows.length) = p.1 := by omega
          rw [hri, ← hinj.1]
          exact hmp
        · rw [if_neg hmp] at hfp
          exact absurd hfp (by simp)

/-- C3 witness: on a 6-wide, 12-tall empty board, inserting one
all-true row mask succeeds and sets exactly the topmost row to intact
garbage, leaving all other cells as before (empty). -/
theorem insert_garbage_rows_spec_witness :
    ((Grid.new 6 12).cells.length = 6 * 12) ∧
    ((Grid.new 6 12).insert_garbage_rows_from_top
        [[true, true, true, true, true, true]]).1 = true ∧
    (∀ x, x < (Grid.new 6 12).width → ∀ y, y < (Grid.new 6 12).height →
      ((Grid.new 6 12).insert_garbage_rows_from_top
          [[true, true, true, true, true, true]]).2.get x y
        = if (Grid.new 6 12).height - [[true, true, true, true, true, true]].length ≤ y ∧
            ([[true, true, true, true, true, true]].getD
              (y - ((Grid.new 6 12).height - [[true, true, true, true, true, true]].length))
              []).getD x false = true
          then some (Block.Garbage false) else (Grid.new 6 12).get x y) := by
  have hlen : (Grid.new 6 12).cells.length = 6 * 12 := by
    simp [Grid.new]
  have h := (insert_garbage_rows_spec (Grid.new 6 12)
    [[true, true, true, true, true, true]] hlen).2 (by decide)
  exact ⟨hlen, h.1, h.2⟩

/-! ### Claim C7 -/
/-- C7 counterexample: on a 1-wide, 6-tall board (bottom half = 3 rows
filled by `fill_test_pattern`), with a color stream that always draws
Red, the cells (0,0) and (0,1) are accepted as Red; at (0,2)
`would_create_match` returns false — it checks no downward pattern —
so Red is accepted without exhausting any retries, yet placing it
creates a vertical run of three Red blocks through (0,2).  The claim
that an accepted non-exhausted placement creates no 3-run through the
cell is false at this input. -/
theorem would_create_match_counterexample :
    ((Grid.new 1 6).fill_test_pattern (fun _ => BlockColor.Red)
      = ((((Grid.new 1 6).setCell 0 0 (some (Block.Normal BlockColor.Red))).setCell 0 1
          (some (Block.Normal BlockColor.Red))).setCell 0 2
          (some (Block.Normal BlockColor.Red)))) ∧
    ((((Grid.new 1 6).setCell 0 0 (some (Block.Normal BlockColor.Red))).setCell 0 1
        (some (Block.Normal BlockColor.Red))).would_create_match 0 2 BlockColor.Red
      = false) ∧
    hasRunThrough ((Grid.new 1 6).fill_test_pattern (fun _ => BlockColor.Red)) 0 2 := by
  refine ⟨by decide, by decide, ?_⟩
  exact Or.inr (Or.inr (Or.inr (Or.inl (by decide))))

/-- C7 amended: when `would_create_match g x y c` returns false (for
in-bounds coordinates on a well-formed board), placing `Normal c` at
`(x, y)` creates no *horizontal* monochrome three-cell window through
`(x, y)` and no *vertical* monochrome window consisting of `(x, y)` and
the two cells directly above it.  Vertical runs that use cells below
the placed cell are not prevented (see the counterexample): during
`fill_test_pattern`, which fills bottom-up, an accepted color can
complete a vertical run with the two already-placed cells below. -/
theorem would_create_match_guarantee (g : Grid) (x y : Nat) (c : BlockColor)
    (hlen : g.cells.length = g.width * g.height)
    (hx : x < g.width) (hy : y < g.height)
    (hw : g.would_create_match x y c = false) :
    ¬ (2 ≤ x ∧ monoH (g.setCell x y (some (Block.Normal c))) (x - 2) y) ∧
    ¬ (1 ≤ x ∧ x + 1 < g.width ∧ monoH (g.setCell x y (some (Block.Normal c))) (x - 1) y) ∧
    ¬ (x + 2 < g.width ∧ monoH (g.setCell x y (some (Block.Normal c))) x y) ∧
    ¬ (y + 2 < g.height ∧ monoV (g.setCell x y (some (Block.Normal c))) x y) := by
  have hother : ∀ a b : Nat, a < g.width → ¬(a = x ∧ b = y) →
      normColor (g.setCell x y (some (Block.Normal c))) a b = normColor g a b := by
    intro a b ha hne
    unfold normColor Grid.get Grid.setCell Grid.idx
    simp only []
    rw [getD_set_ne]
    intro hcon
    have hinj := idx_inj hx ha hcon
    exact hne ⟨hinj.1.symm, hinj.2.symm⟩
  have hcc : normColor (g.setCell x y (some (Block.Normal c))) x y = some c := by
    unfold normColor Grid.get Grid.setCell Grid.idx
    simp only []
    rw [getD_set_self _ _ _ (by rw [hlen]; exact idx_lt hx hy)]
    rfl
  refine ⟨?_, ?_, ?_, ?_⟩
  · rintro ⟨hx2, hmono⟩
    obtain ⟨hsome, hm1, hm2⟩ := hmono
    rw [show x - 2 + 1 = x - 1 from by omega] at hm1
    rw [show x - 2 + 2 = x from by omega, hcc] at hm2
    have e2 : normColor g (x - 2) y = some c := by
      rw [← hother (x - 2) y (by omega) (by rintro ⟨h, _⟩; omega)]
      exact hm2.symm
    have e1 : normColor g (x - 1) y = some c := by
      rw [← hother (x - 1) y (by omega) (by rintro ⟨h, _⟩; omega)]
      rw [hm1]
      exact hm2.symm
    have e1' : (g.get (x - 1) y).bind Block.color = some c := e1
    have e2' : (g.get (x - 2) y).bind Block.color = some c := e2
    simp only [Grid.would_create_match] at hw
    rw [if_pos (show 1 ≤ x by omega), if_pos (show 2 ≤ x by omega), e1', e2'] at hw
    simp at hw
  · rintro ⟨hx1, hxw, hmono⟩
    obtain ⟨hsome, hm1, hm2⟩ := hmono
    rw [show x - 1 + 1 = x from by omega, hcc] at hm1
    rw [show x - 1 + 2 = x + 1 from by omega] at hm2
    have e1 : normColor g (x - 1) y = some c := by
      rw [← hother (x - 1) y (by omega) (by rintro ⟨h, _⟩; omega)]
      exact hm1.symm
    have e3 : normColor g (x + 1) y = some c := by
      rw [← hother (x + 1) y (by omega) (by rintro ⟨h, _⟩; omega)]
      rw [hm2]
      exact hm1.symm
    have e1' : (g.get (x - 1) y).bind Block.color = some c := e1
    have e3' : (g.get (x + 1) y).bind Block.color = some c := e3
    simp only [Grid.would_create_match] at hw
    rw [if_pos (show 1 ≤ x by omega), if_pos (show x + 1 < g.width from hxw), e1', e3'] at hw
    simp at hw
  · rintro ⟨hxw, hmono⟩
    obtain ⟨hsome, hm1, hm2⟩ := hmono
    rw [hcc] at hm1 hm2
    have e3 : normColor g (x + 1) y = some c := by
      rw [← hother (x + 1) y (by omega) (by rintro ⟨h, _⟩; omega)]
      exact hm1
    have e4 : normColor g (x + 2) y = some c := by
      rw [← hother (x + 2) y (by omega) (by rintro ⟨h, _⟩; omega)]
      exact hm2
    have e3' : (g.get (x + 1) y).bind Block.color = some c := e3
    have e4' : (g.get (x + 2) y).bind Block.color = some c := e4
    simp only [Grid.would_create_match] at hw
    rw [if_pos (show x + 1 < g.width by omega), if_pos (show x + 2 < g.width from hxw),
      e3', e4'] at hw
    simp at hw
  · rintro ⟨hy2, hmono⟩
    obtain ⟨hsome, hm1, hm2⟩ := hmono
    rw [hcc] at hm1 hm2
    have e5 : normColor g x (y + 1) = some c := by
      rw [← hother x (y + 1) hx (by rintro ⟨_, h⟩; omega)]
      exact hm1
    have e6 : normColor g x (y + 2) = some c := by
      rw [← hother x (y + 2) hx (by rintro ⟨_, h⟩; omega)]
      exact hm2
    have e5' : (g.get x (y + 1)).bind Block.color = some c := e5
    have e6' : (g.get x (y + 2)).bind Block.color = some c := e6
    simp only [Grid.would_create_match] at hw
    rw [e5', e6'] at hw
    simp [hy2] at hw

/-- C7 amended-claim witness: on the empty 6×12 board,
`would_create_match 0 0 Red` is false and the guarantee applies. -/
theorem would_create_match_guarantee_witness :
    ((Grid.new 6 12).cells.length = (Grid.new 6 12).width * (Grid.new 6 12).height ∧
     0 < (Grid.new 6 12).width ∧ 0 < (Grid.new 6 12).height ∧
     (Grid.new 6 12).would_create_match 0 0 BlockColor.Red = false) ∧
    (¬ (2 ≤ 0 ∧ monoH ((Grid.new 6 12).setCell 0 0 (some (Block.Normal BlockColor.Red)))
          (0 - 2) 0) ∧
     ¬ (1 ≤ 0 ∧ 0 + 1 < (Grid.new 6 12).width ∧
          monoH ((Grid.new 6 12).setCell 0 0 (some (Block.Normal BlockColor.Red))) (0 - 1) 0) ∧
     ¬ (0 + 2 < (Grid.new 6 12).width ∧
          monoH ((Grid.new 6 12).setCell 0 0 (some (Block.Normal BlockColor.Red))) 0 0) ∧
     ¬ (0 + 2 < (Grid.new 6 12).height ∧
          monoV ((Grid.new 6 12).setCell 0 0 (some (Block.Normal BlockColor.Red))) 0 0)) :=
  ⟨⟨by simp [Grid.new], by decide, by decide, by decide⟩,
   would_create_match_guarantee (Grid.new 6 12) 0 0 BlockColor.Red
     (by simp [Grid.new]) (by decide) (by decide) (by decide)⟩

theorem garbAt_lt_length {snap : List (Option Block)} {i : Nat} (h : garbAt snap i) :
    i < snap.length := by
  obtain ⟨cr, hc⟩ := h
  by_contra hge
  rw [List.getD_eq_getElem?_getD, List.getElem?_eq_none (by omega)] at hc
  exact absurd hc (by simp)

theorem getD_set_true_self (l : List Bool) (i : Nat) :
    (l.set i true).getD i true = true := by
  by_cases hlt : i < l.length
  · exact getD_set_self _ _ _ hlt
  · rw [List.set_eq_of_length_le (by omega), List.getD_eq_getElem?_getD,
      List.getElem?_eq_none (by omega)]
    rfl

theorem getD_set_true_mono {l : List Bool} {i j : Nat}
    (h : l.getD j true = true) : (l.set i true).getD j true = true := by
  by_cases hij : i = j
  · subst hij
    by_cases hlt : i < l.length
    · exact getD_set_self _ _ _ hlt
    · rw [List.set_eq_of_length_le (by omega)]
      exact h
  · rw [getD_set_ne _ _ _ _ hij]
    exact h

theorem getD_set_true_false {l : List Bool} {i j : Nat}
    (h : (l.set i true).getD j true = false) : l.getD j true = false := by
  by_contra hne
  have : l.getD j true = true := by
    cases hv : l.getD j true
    · exact absurd hv hne
    · rfl
  rw [getD_set_true_mono this] at h
  exact absurd h (by simp)

/-- `visitNb` preserves the flood invariant, only adds visited marks,
and only pushes cells that were unvisited; pushed cells come from the
neighbor list of an in-bounds cell. -/
theorem visitNb_inv (w h : Nat) (snap : List (Option Block)) (comp : List (Nat × Nat))
    (cell : Nat × Nat) (hcell : cellInBounds w h cell)
    (st : List Bool × List (Nat × Nat)) (n : Nat × Nat × Bool)
    (hn : n ∈ neighborList w h cell) (hinv : FloodInv w h snap comp st) :
    FloodInv w h snap comp (visitNb w snap st n) ∧
    (∀ i, st.1.getD i true = true → (visitNb w snap st n).1.getD i true = true) ∧
    (∀ c ∈ (visitNb w snap st n).2,
      c ∈ st.2 ∨ st.1.getD (cellIdx w c) true = false) := by
  unfold visitNb
  by_cases hok : n.2.2 = true
  · rw [if_pos hok]
    simp only []
    by_cases hvis : st.1.getD (n.2.1 * w + n.1) true = true
    · rw [if_pos hvis]
      exact ⟨hinv, fun i hi => hi, fun c hc => Or.inl hc⟩
    · rw [if_neg hvis]
      have hvisf : st.1.getD (n.2.1 * w + n.1) true = false := by
        cases hv : st.1.getD (n.2.1 * w + n.1) true
        · rfl
        · exact absurd hv hvis
      rcases hsnap : snap.getD (n.2.1 * w + n.1) none with _ | b
      · exact ⟨hinv, fun i hi => hi, fun c hc => Or.inl hc⟩
      · cases b with
        | Normal col =>
          exact ⟨hinv, fun i hi => hi, fun c hc => Or.inl hc⟩
        | Garbage cr =>
          have hnin : cellInBounds w h (n.1, n.2.1) := by
            obtain ⟨hcx, hcy⟩ := hcell
            unfold neighborList at hn
            simp only [List.mem_cons, List.not_mem_nil, or_false] at hn
            rcases hn with rfl | rfl | rfl | rfl <;>
              simp only [decide_eq_true_eq] at hok <;>
              (refine ⟨?_, ?_⟩ <;> dsimp only <;> omega)
          have hgarb : garbAt snap (cellIdx w (n.1, n.2.1)) := ⟨cr, hsnap⟩
          have hidx : cellIdx w (n.1, n.2.1) = n.2.1 * w + n.1 := rfl
          refine ⟨⟨?_, ?_⟩, ?_, ?_⟩
          · intro c hc
            rcases List.mem_cons.mp (by
                simpa only [List.cons_append] using hc) with rfl | hc'
            · exact ⟨hnin, hgarb, by rw [hidx]; exact getD_set_true_self st.1 _⟩
            · obtain ⟨h1, h2, h3⟩ := hinv.1 c hc'
              exact ⟨h1, h2, getD_set_true_mono h3⟩
          · simp only [List.cons_append, List.map_cons]
            rw [List.nodup_cons]
            refine ⟨?_, hinv.2⟩
            intro hmem
            rw [List.mem_map] at hmem
            obtain ⟨d, hd, hde⟩ := hmem
            have := (hinv.1 d hd).2.2
            rw [hde, hidx] at this
            rw [this] at hvisf
            exact absurd hvisf (by simp)
          · intro i hi
            exact getD_set_true_mono hi
          · intro c hc
            rcases List.mem_cons.mp hc with rfl | hc'
            · exact Or.inr (by rw [hidx]; exact hvisf)
            · exact Or.inl hc'
  · rw [if_neg hok]
    exact ⟨hinv, fun i hi => hi, fun c hc => Or.inl hc⟩

/-- The neighbor fold preserves the flood invariant; visited marks only
grow and new stack entries were unvisited at fold entry. -/
theorem foldl_visitNb_inv (w h : Nat) (snap : List (Option Block)) (comp : List (Nat × Nat))
    (cell : Nat × Nat) (hcell : cellInBounds w h cell) :
    ∀ (l : List (Nat × Nat × Bool)), (∀ n ∈ l, n ∈ neighborList w h cell) →
    ∀ (st : List Bool × List (Nat × Nat)), FloodInv w h snap comp st →
    FloodInv w h snap comp (l.foldl (visitNb w snap) st) ∧
    (∀ i, st.1.getD i true = true → (l.foldl (visitNb w snap) st).1.getD i true = true) ∧
    (∀ c ∈ (l.foldl (visitNb w snap) st).2,
      c ∈ st.2 ∨ st.1.getD (cellIdx w c) true = false) := by
  intro l
  induction l with
  | nil =>
    intro _ st hinv
    exact ⟨hinv, fun i hi => hi, fun c hc => Or.inl hc⟩
  | cons n l ih =>
    intro hl st hinv
    rw [List.foldl_cons]
    have h1 := visitNb_inv w h snap comp cell hcell st n (hl n (List.mem_cons_self _ _)) hinv
    have h2 := ih (fun m hm => hl m (List.mem_cons_of_mem _ hm)) _ h1.1
    refine ⟨h2.1, fun i hi => h2.2.1 i (h1.2.1 i hi), ?_⟩
    intro c hc
    rcases h2.2.2 c hc with hin | hfa
    · rcases h1.2.2 c hin with hin2 | hf
      · exact Or.inl hin2
      · exact Or.inr hf
    · right
      cases hv : st.1.getD (cellIdx w c) true
      · rfl
      · rw [h1.2.1 _ hv] at hfa
        exact absurd hfa (by simp)

/-- Flood-fill loop invariants: the collected component consists of
distinct in-bounds garbage cells, all marked visited in the result;
visited marks only grow; each collected cell was on the initial stack,
in the initial component, or unvisited initially; and the initial
component is preserved. -/
theorem floodLoop_inv (w h : Nat) (snap : List (Option Block)) :
    ∀ (fuel : Nat) (visited : List Bool) (stack comp : List (Nat × Nat)),
    FloodInv w h snap comp (visited, stack) →
    (∀ c ∈ (floodLoop w h snap fuel visited stack comp).2,
        cellInBounds w h c ∧ garbAt snap (cellIdx w c) ∧
        (floodLoop w h snap fuel visited stack comp).1.getD (cellIdx w c) true = true) ∧
    ((floodLoop w h snap fuel visited stack comp).2.map (cellIdx w)).Nodup ∧
    (∀ i, visited.getD i true = true →
      (floodLoop w h snap fuel visited stack comp).1.getD i true = true) ∧
    (∀ c ∈ (floodLoop w h snap fuel visited stack comp).2,
      c ∈ stack ∨ c ∈ comp ∨ visited.getD (cellIdx w c) true = false) ∧
    (∀ c ∈ comp, c ∈ (floodLoop w h snap fuel visited stack comp).2) := by
  intro fuel
  induction fuel with
  | zero =>
    intro visited stack comp hinv
    refine ⟨?_, ?_, fun i hi => hi, fun c hc => Or.inr (Or.inl hc), fun c hc => hc⟩
    · intro c hc
      exact hinv.1 c (List.mem_append_right _ hc)
    · have hnd := hinv.2
      rw [List.map_append] at hnd
      exact hnd.of_append_right
  | succ fuel ih =>
    intro visited stack comp hinv
    cases stack with
    | nil =>
      refine ⟨?_, ?_, fun i hi => hi, fun c hc => Or.inr (Or.inl hc), fun c hc => hc⟩
      · intro c hc
        exact hinv.1 c (List.mem_append_right _ hc)
      · have hnd := hinv.2
        rw [List.map_append] at hnd
        exact hnd.of_append_right
    | cons cell rest =>
      have hcell : cellInBounds w h cell :=
        (hinv.1 cell (by simp)).1
      have hperm : List.Perm ((cell :: rest) ++ comp) (rest ++ (comp ++ [cell])) := by
        have h1 : (cell :: rest) ++ comp = cell :: (rest ++ comp) := by simp
        have h2 : rest ++ (comp ++ [cell]) = (rest ++ comp) ++ [cell] := by simp
        rw [h1, h2]
        exact (List.perm_append_singleton cell (rest ++ comp)).symm
      have hinvP : FloodInv w h snap (comp ++ [cell]) (visited, rest) := by
        refine ⟨?_, ?_⟩
        · intro c hc
          exact hinv.1 c (hperm.mem_iff.mpr hc)
        · exact ((hperm.map (cellIdx w)).nodup_iff).mp hinv.2
      have hfold := foldl_visitNb_inv w h snap (comp ++ [cell]) cell hcell
        (neighborList w h cell) (fun n hn => hn) (visited, rest) hinvP
      set st := (neighborList w h cell).foldl (visitNb w snap) (visited, rest) with hst
      have hrec := ih st.1 st.2 (comp ++ [cell]) hfold.1
      have hstep : floodLoop w h snap (fuel + 1) visited (cell :: rest) comp
          = floodLoop w h snap fuel st.1 st.2 (comp ++ [cell]) := by
        rw [hst]
        simp only [floodLoop]
      rw [hstep]
      refine ⟨hrec.1, hrec.2.1, ?_, ?_, ?_⟩
      · intro i hi
        exact hrec.2.2.1 i (hfold.2.1 i hi)
      · intro c hc
        rcases hrec.2.2.2.1 c hc with hst | hcomp | hfa
        · rcases hfold.2.2 c hst with hin | hf
          · exact Or.inl (List.mem_cons_of_mem _ hin)
          · exact Or.inr (Or.inr hf)
        · rcases List.mem_append.mp hcomp with hc2 | hc2
          · exact Or.inr (Or.inl hc2)
          · rw [List.mem_singleton] at hc2
            exact Or.inl (hc2 ▸ List.mem_cons_self _ _)
        · right; right
          cases hv : visited.getD (cellIdx w c) true
          · rfl
          · rw [hfold.2.1 _ hv] at hfa
            exact absurd hfa (by simp)
      · intro c hc
        exact hrec.2.2.2.2 c (List.mem_append_left _ hc)

theorem mem_scanPairs {w h : Nat} {p : Nat × Nat} :
    p ∈ scanPairs w h ↔ p.1 < w ∧ p.2 < h := by
  unfold scanPairs
  rw [List.mem_flatMap]
  constructor
  · rintro ⟨y, hy, hp⟩
    rw [List.mem_map] at hp
    obtain ⟨x, hx, rfl⟩ := hp
    exact ⟨List.mem_range.mp hx, List.mem_range.mp hy⟩
  · rintro ⟨h1, h2⟩
    exact ⟨p.2, List.mem_range.mpr h2, List.mem_map.mpr ⟨p.1, List.mem_range.mpr h1, rfl⟩⟩

/-- The flood-fill started at the head of the stack always collects
that head (one iteration of fuel suffices). -/
theorem floodLoop_head_mem (w h : Nat) (snap : List (Option Block))
    (fuel : Nat) (visited : List Bool) (cell : Nat × Nat) (rest comp : List (Nat × Nat))
    (hinv : FloodInv w h snap comp (visited, cell :: rest)) :
    cell ∈ (floodLoop w h snap (fuel + 1) visited (cell :: rest) comp).2 := by
  have hcell : cellInBounds w h cell := (hinv.1 cell (by simp)).1
  have hperm : List.Perm ((cell :: rest) ++ comp) (rest ++ (comp ++ [cell])) := by
    have h1 : (cell :: rest) ++ comp = cell :: (rest ++ comp) := by simp
    have h2 : rest ++ (comp ++ [cell]) = (rest ++ comp) ++ [cell] := by simp
    rw [h1, h2]
    exact (List.perm_append_singleton cell (rest ++ comp)).symm
  have hinvP : FloodInv w h snap (comp ++ [cell]) (visited, rest) := by
    refine ⟨?_, ?_⟩
    · intro c hc
      exact hinv.1 c (hperm.mem_iff.mpr hc)
    · exact ((hperm.map (cellIdx w)).nodup_iff).mp hinv.2
  have hfold := foldl_visitNb_inv w h snap (comp ++ [cell]) cell hcell
    (neighborList w h cell) (fun n hn => hn) (visited, rest) hinvP
  set st := (neighborList w h cell).foldl (visitNb w snap) (visited, rest) with hst
  have hrec := floodLoop_inv w h snap fuel st.1 st.2 (comp ++ [cell]) hfold.1
  have hstep : floodLoop w h snap (fuel + 1) visited (cell :: rest) comp
      = floodLoop w h snap fuel st.1 st.2 (comp ++ [cell]) := by
    rw [hst]
    simp only [floodLoop]
  rw [hstep]
  exact hrec.2.2.2.2 cell (List.mem_append_right _ (List.mem_singleton_self _))

theorem scanStep_inv (w h : Nat) (snap : List (Option Block))
    (st : List Bool × List (List (Nat × Nat))) (p : Nat × Nat)
    (hp : p.1 < w ∧ p.2 < h) (hinv : ScanInv w h snap st) :
    ScanInv w h snap (scanStep w h snap st p) ∧
    (∀ i, st.1.getD i true = true → (scanStep w h snap st p).1.getD i true = true) := by
  unfold scanStep
  by_cases hvis : st.1.getD (p.2 * w + p.1) true = true
  · rw [if_pos hvis]
    exact ⟨hinv, fun i hi => hi⟩
  · rw [if_neg hvis]
    have hvf : st.1.getD (p.2 * w + p.1) true = false := by
      cases hv : st.1.getD (p.2 * w + p.1) true
      · rfl
      · exact absurd hv hvis
    rcases hsnap : snap.getD (p.2 * w + p.1) none with _ | b
    · exact ⟨hinv, fun i hi => hi⟩
    · cases b with
      | Normal col => exact ⟨hinv, fun i hi => hi⟩
      | Garbage cr =>
        simp only []
        have hpidx : cellIdx w p = p.2 * w + p.1 := rfl
        have hseed : FloodInv w h snap [] (st.1.set (p.2 * w + p.1) true, [p]) := by
          refine ⟨?_, ?_⟩
          · intro c hc
            simp only [List.append_nil, List.mem_singleton] at hc
            subst hc
            exact ⟨hp, ⟨cr, hsnap⟩, by rw [hpidx]; exact getD_set_true_self _ _⟩
          · simp
        set fl := floodLoop w h snap (floodFuel snap) (st.1.set (p.2 * w + p.1) true) [p] []
          with hfl
        have hflinv := floodLoop_inv w h snap (floodFuel snap)
          (st.1.set (p.2 * w + p.1) true) [p] [] hseed
        have hpmem : p ∈ fl.2 := by
          rw [hfl]
          unfold floodFuel
          exact floodLoop_head_mem w h snap (2 * snap.length + 1)
            (st.1.set (p.2 * w + p.1) true) p [] [] hseed
        have hmono : ∀ i, st.1.getD i true = true → fl.1.getD i true = true := by
          intro i hi
          exact hflinv.2.2.1 i (getD_set_true_mono hi)
        refine ⟨⟨?_, ?_, ?_, ?_⟩, ?_⟩
        · intro comp hcomp c hc
          rcases List.mem_append.mp hcomp with hold | hnew
          · obtain ⟨h1, h2, h3⟩ := hinv.1 comp hold c hc
            exact ⟨h1, h2, hmono _ h3⟩
          · rw [List.mem_singleton] at hnew
            subst hnew
            exact hflinv.1 c hc
        · intro comp hcomp
          rcases List.mem_append.mp hcomp with hold | hnew
          · exact hinv.2.1 comp hold
          · rw [List.mem_singleton] at hnew
            subst hnew
            exact hflinv.2.1
        · intro comp hcomp
          rcases List.mem_append.mp hcomp with hold | hnew
          · exact hinv.2.2.1 comp hold
          · rw [List.mem_singleton] at hnew
            subst hnew
            intro hcon
            rw [hcon] at hpmem
            exact absurd hpmem (List.not_mem_nil _)
        · rw [List.pairwise_append]
          refine ⟨hinv.2.2.2, List.pairwise_singleton _ _, ?_⟩
          intro c1 hc1 c2 hc2 a ha b hb
          rw [List.mem_singleton] at hc2
          subst hc2
          have hat : st.1.getD (cellIdx w a) true = true := (hinv.1 c1 hc1 a ha).2.2
          rcases hflinv.2.2.2.1 b hb with hbp | hbe | hbf
          · rw [List.mem_singleton] at hbp
            subst hbp
            intro hcon
            rw [hcon, hpidx] at hat
            rw [hat] at hvf
            exact absurd hvf (by simp)
          · exact absurd hbe (List.not_mem_nil _)
          · have hbst : st.1.getD (cellIdx w b) true = false := getD_set_true_false hbf
            intro hcon
            rw [hcon, hbst] at hat
            exact absurd hat (by simp)
        · exact hmono

theorem foldl_scanStep_inv (w h : Nat) (snap : List (Option Block)) :
    ∀ (l : List (Nat × Nat)), (∀ p ∈ l, p.1 < w ∧ p.2 < h) →
    ∀ (st : List Bool × List (List (Nat × Nat))), ScanInv w h snap st →
    ScanInv w h snap (l.foldl (scanStep w h snap) st) := by
  intro l
  induction l with
  | nil => intro _ st hinv; exact hinv
  | cons p l ih =>
    intro hl st hinv
    rw [List.foldl_cons]
    exact ih (fun q hq => hl q (List.mem_cons_of_mem _ hq)) _
      (scanStep_inv w h snap st p (hl p (List.mem_cons_self _ _)) hinv).1

/-- Properties of the garbage component scan: components consist of
distinct in-bounds garbage cells, are nonempty, and are pairwise
index-disjoint. -/
theorem findGarbageComponents_props (w h : Nat) (snap : List (Option Block)) :
    (∀ comp ∈ findGarbageComponents w h snap, ∀ c ∈ comp,
        cellInBounds w h c ∧ garbAt snap (cellIdx w c)) ∧
    (∀ comp ∈ findGarbageComponents w h snap, (comp.map (cellIdx w)).Nodup) ∧
    (∀ comp ∈ findGarbageComponents w h snap, comp ≠ []) ∧
    List.Pairwise (fun c1 c2 => ∀ a ∈ c1, ∀ b ∈ c2, cellIdx w a ≠ cellIdx w b)
      (findGarbageComponents w h snap) := by
  have hinit : ScanInv w h snap (List.replicate snap.length false, []) := by
    refine ⟨?_, ?_, ?_, ?_⟩ <;> simp [List.Pairwise.nil]
  have h := foldl_scanStep_inv w h snap (scanPairs w h)
    (fun p hp => mem_scanPairs.mp hp) _ hinit
  unfold findGarbageComponents
  exact ⟨fun comp hc c hcc => ⟨(h.1 comp hc c hcc).1, (h.1 comp hc c hcc).2.1⟩,
    h.2.1, h.2.2.1, h.2.2.2⟩

/-! ### The can-fall predicate and component moves -/
theorem canFall_iff {w : Nat} {snap : List (Option Block)} {comp : List (Nat × Nat)} :
    canFall w snap comp = true ↔
      ∀ cell ∈ comp, cell.2 ≠ 0 ∧
        ((snap.getD ((cell.2 - 1) * w + cell.1) none).isSome = false ∨
          ∃ d ∈ comp, d.2 * w + d.1 = (cell.2 - 1) * w + cell.1) := by
  unfold canFall
  rw [List.all_eq_true]
  constructor
  · intro h cell hc
    have := h cell hc
    rw [Bool.and_eq_true, Bool.or_eq_true, decide_eq_true_eq] at this
    refine ⟨this.1, ?_⟩
    rcases this.2 with hb | hb
    · left
      cases hs : (snap.getD ((cell.2 - 1) * w + cell.1) none).isSome
      · rfl
      · rw [hs] at hb
        exact absurd hb (by simp)
    · right
      rw [List.any_eq_true] at hb
      obtain ⟨d, hd, hde⟩ := hb
      exact ⟨d, hd, by simpa using hde⟩
  · intro h cell hc
    obtain ⟨h1, h2⟩ := h cell hc
    rw [Bool.and_eq_true, Bool.or_eq_true, decide_eq_true_eq]
    refine ⟨h1, ?_⟩
    rcases h2 with hb | ⟨d, hd, hde⟩
    · left
      rw [hb]
      rfl
    · right
      rw [List.any_eq_true]
      exact ⟨d, hd, by simpa using hde⟩

/-- On an all-garbage component the move list covers exactly the
component's cells. -/
theorem componentMoves_map_fst (w : Nat) (snap : List (Option Block))
    (comp : List (Nat × Nat)) (hg : ∀ c ∈ comp, garbAt snap (cellIdx w c)) :
    (componentMoves w snap comp).map Prod.fst = comp.map (cellIdx w) := by
  induction comp with
  | nil => rfl
  | cons c l ih =>
    obtain ⟨cr, hcr⟩ := hg c (List.mem_cons_self _ _)
    unfold componentMoves
    rw [List.filterMap_cons]
    have : cellIdx w c = c.2 * w + c.1 := rfl
    rw [← this, hcr]
    rw [Option.map_some']
    rw [List.map_cons]
    unfold componentMoves at ih
    rw [ih (fun d hd => hg d (List.mem_cons_of_mem _ hd))]
    rfl

theorem mem_componentMoves {w : Nat} {snap : List (Option Block)}
    {comp : List (Nat × Nat)} {m : Nat × Nat × Block} :
    m ∈ componentMoves w snap comp ↔
      ∃ c ∈ comp, ∃ b, snap.getD (cellIdx w c) none = some b ∧
        m = (cellIdx w c, ((c.2 - 1) * w + c.1, b)) := by
  unfold componentMoves
  rw [List.mem_filterMap]
  constructor
  · rintro ⟨c, hc, hm⟩
    rw [Option.map_eq_some'] at hm
    obtain ⟨b, hb, hbm⟩ := hm
    exact ⟨c, hc, b, hb, hbm.symm⟩
  · rintro ⟨c, hc, b, hb, rfl⟩
    refine ⟨c, hc, ?_⟩
    have : cellIdx w c = c.2 * w + c.1 := rfl
    rw [← this, hb]
    rfl

/-- A qualifying component contributes at least one move. -/
theorem componentMoves_ne_nil {w : Nat} {snap : List (Option Block)}
    {comp : List (Nat × Nat)} (hne : comp ≠ [])
    (hg : ∀ c ∈ comp, garbAt snap (cellIdx w c)) :
    componentMoves w snap comp ≠ [] := by
  intro hcon
  have := componentMoves_map_fst w snap comp hg
  rw [hcon] at this
  cases comp with
  | nil => exact hne rfl
  | cons c l => exact absurd this.symm (by simp)

/-! ### Claim C8 -/
/-- C8: `has_falling_garbage` returns true exactly when
`apply_gravity_step` on the same board would move at least one garbage
block — i.e. exactly when the garbage move list that
`apply_gravity_step` computes from the same cells is nonempty — and
whenever it returns true, `apply_gravity_step` reports movement.  Both
functions evaluate the same can-fall predicate over the same component
scan. -/
theorem has_falling_garbage_iff (g : Grid) :
    (g.has_falling_garbage = true ↔ garbageMoves g.width g.height g.cells ≠ []) ∧
    (g.has_falling_garbage = true → (g.apply_gravity_step).1 = true) := by
  obtain ⟨hcells, hnodup, hnonempty, hdisj⟩ :=
    findGarbageComponents_props g.width g.height g.cells
  have hmain : g.has_falling_garbage = true ↔
      garbageMoves g.width g.height g.cells ≠ [] := by
    unfold Grid.has_falling_garbage garbageMoves
    rw [List.any_eq_true]
    constructor
    · rintro ⟨comp, hcomp, hfall⟩
      have hmem : comp ∈ (findGarbageComponents g.width g.height g.cells).filter
          (canFall g.width g.cells) := by
        rw [List.mem_filter]
        exact ⟨hcomp, hfall⟩
      have hne := componentMoves_ne_nil (hnonempty comp hcomp)
        (fun c hc => (hcells comp hcomp c hc).2)
      intro hcon
      rcases hm : componentMoves g.width g.cells comp with _ | ⟨mv, rest⟩
      · exact hne hm
      · have : mv ∈ ((findGarbageComponents g.width g.height g.cells).filter
            (canFall g.width g.cells)).flatMap (componentMoves g.width g.cells) := by
          rw [List.mem_flatMap]
          exact ⟨comp, hmem, by rw [hm]; exact List.mem_cons_self _ _⟩
        rw [hcon] at this
        exact absurd this (List.not_mem_nil _)
    · intro hne
      rcases hm : ((findGarbageComponents g.width g.height g.cells).filter
          (canFall g.width g.cells)).flatMap (componentMoves g.width g.cells) with _ | ⟨mv, rest⟩
      · exact absurd hm hne
      · have hmv : mv ∈ ((findGarbageComponents g.width g.height g.cells).filter
            (canFall g.width g.cells)).flatMap (componentMoves g.width g.cells) := by
          rw [hm]
          exact List.mem_cons_self _ _
        rw [List.mem_flatMap] at hmv
        obtain ⟨comp, hcomp, _⟩ := hmv
        rw [List.mem_filter] at hcomp
        exact ⟨comp, hcomp.1, hcomp.2⟩
  refine ⟨hmain, ?_⟩
  intro htrue
  have hgm := hmain.mp htrue
  unfold Grid.has_falling_garbage at htrue
  rw [List.any_eq_true] at htrue
  obtain ⟨comp, hcomp, hfall⟩ := htrue
  obtain ⟨cell, hcell⟩ := List.exists_mem_of_ne_nil comp (hnonempty comp hcomp)
  have hy0 : cell.2 ≠ 0 := (canFall_iff.mp hfall cell hcell).1
  have hyh : cell.2 < g.height := (hcells comp hcomp cell hcell).1.2
  have hh2 : ¬ g.height < 2 := by omega
  unfold Grid.apply_gravity_step
  rw [if_neg hh2]
  simp only []
  rw [if_neg]
  intro hcon
  rw [Bool.and_eq_true, List.isEmpty_iff, List.isEmpty_iff] at hcon
  exact hgm hcon.2

/-! ### Facts about the gravity move lists -/
theorem normalEntry_eq_some {w : Nat} {snap : List (Option Block)} {x y : Nat}
    {m : Nat × Nat × Block} :
    normalEntry w snap x y = some m ↔
      ∃ c, snap.getD (y * w + x) none = some (Block.Normal c) ∧
        snap.getD ((y - 1) * w + x) none = none ∧
        m = (y * w + x, ((y - 1) * w + x, Block.Normal c)) := by
  unfold normalEntry
  rcases hs : snap.getD (y * w + x) none with _ | b
  · simp
  · cases b with
    | Normal c =>
      dsimp only
      by_cases hb : (snap.getD ((y - 1) * w + x) none).isSome = true
      · rw [if_pos hb]
        constructor
        · intro hcon
          exact absurd hcon (by simp)
        · rintro ⟨c2, hc2, hbelow, rfl⟩
          rw [hbelow] at hb
          exact absurd hb (by simp)
      · rw [if_neg hb]
        rw [Option.not_isSome_iff_eq_none] at hb
        constructor
        · intro hsome
          exact ⟨c, rfl, hb, (Option.some.inj hsome).symm⟩
        · rintro ⟨c2, hc2, _, rfl⟩
          rw [Option.some.inj hc2]
    | Garbage cr => simp

theorem mem_normalMoves {w h : Nat} {snap : List (Option Block)} {m : Nat × Nat × Block} :
    m ∈ normalMoves w h snap ↔
      ∃ x, x < w ∧ ∃ y, 1 ≤ y ∧ y < h ∧ normalEntry w snap x y = some m := by
  unfold normalMoves
  rw [List.mem_flatMap]
  constructor
  · rintro ⟨x, hx, hm⟩
    rw [List.mem_filterMap] at hm
    obtain ⟨i, hi, he⟩ := hm
    exact ⟨x, List.mem_range.mp hx, i + 1, by omega,
      by have := List.mem_range.mp hi; omega, he⟩
  · rintro ⟨x, hx, y, hy1, hyh, he⟩
    refine ⟨x, List.mem_range.mpr hx, ?_⟩
    rw [List.mem_filterMap]
    refine ⟨y - 1, List.mem_range.mpr (by omega), ?_⟩
    rw [show y - 1 + 1 = y from by omega]
    exact he

theorem normalMoves_facts {w h : Nat} {snap : List (Option Block)} {m : Nat × Nat × Block}
    (hm : m ∈ normalMoves w h snap) :
    snap.getD m.1 none = some m.2.2 ∧ m.2.1 + w = m.1 ∧ 1 ≤ w ∧
    snap.getD m.2.1 none = none ∧ ∃ c, m.2.2 = Block.Normal c := by
  rw [mem_normalMoves] at hm
  obtain ⟨x, hx, y, hy1, hyh, he⟩ := hm
  rw [normalEntry_eq_some] at he
  obtain ⟨c, hc, hbelow, rfl⟩ := he
  have harith : (y - 1) * w + x + w = y * w + x := by
    have h1 : y - 1 + 1 = y := by omega
    calc (y - 1) * w + x + w = ((y - 1) + 1) * w + x := by ring
      _ = y * w + x := by rw [h1]
  exact ⟨hc, harith, by omega, hbelow, c, rfl⟩

theorem garbageMoves_facts {w h : Nat} {snap : List (Option Block)} {m : Nat × Nat × Block}
    (hm : m ∈ garbageMoves w h snap) :
    snap.getD m.1 none = some m.2.2 ∧ m.2.1 + w = m.1 ∧ 1 ≤ w ∧
    (∃ cr, m.2.2 = Block.Garbage cr) ∧
    ((snap.getD m.2.1 none).isSome = true →
      ∃ m2 ∈ garbageMoves w h snap, m2.1 = m.2.1) := by
  obtain ⟨hcells, hnodup, hnonempty, hdisj⟩ := findGarbageComponents_props w h snap
  unfold garbageMoves at hm ⊢
  rw [List.mem_flatMap] at hm
  obtain ⟨comp, hcompf, hmm⟩ := hm
  have hcompf2 := hcompf
  rw [List.mem_filter] at hcompf2
  obtain ⟨hcomp, hfall⟩ := hcompf2
  rw [mem_componentMoves] at hmm
  obtain ⟨c, hc, b, hb, rfl⟩ := hmm
  obtain ⟨⟨hcx, hcy⟩, cr, hgarb⟩ := hcells comp hcomp c hc
  have hcfall := canFall_iff.mp hfall c hc
  have hbg : b = Block.Garbage cr := by
    have : cellIdx w c = c.2 * w + c.1 := rfl
    rw [hgarb] at hb
    exact (Option.some.inj hb).symm
  have harith : (c.2 - 1) * w + c.1 + w = cellIdx w c := by
    have h1 : c.2 - 1 + 1 = c.2 := by omega
    show (c.2 - 1) * w + c.1 + w = c.2 * w + c.1
    calc (c.2 - 1) * w + c.1 + w = ((c.2 - 1) + 1) * w + c.1 := by ring
      _ = c.2 * w + c.1 := by rw [h1]
  refine ⟨hb, harith, by omega, ⟨cr, hbg⟩, ?_⟩
  intro hocc
  rcases hcfall.2 with hnone | ⟨d, hd, hde⟩
  · rw [hnone] at hocc
    exact absurd hocc (by simp)
  · obtain ⟨⟨hdx, hdy⟩, crd, hgd⟩ := hcells comp hcomp d hd
    refine ⟨(cellIdx w d, ((d.2 - 1) * w + d.1, Block.Garbage crd)), ?_, ?_⟩
    · rw [List.mem_flatMap]
      refine ⟨comp, hcompf, ?_⟩
      rw [mem_componentMoves]
      exact ⟨d, hd, Block.Garbage crd, hgd, rfl⟩
    · show cellIdx w d = (c.2 - 1) * w + c.1
      exact hde

/-- Distinct `fst` values for a `filterMap` whose produced keys
determine the producing element. -/
theorem nodup_map_fst_filterMap {α β : Type} (l : List α) (f : α → Option (Nat × β))
    (hnd : l.Nodup)
    (hinj : ∀ a ∈ l, ∀ a2 ∈ l, ∀ m m2, f a = some m → f a2 = some m2 →
      m.1 = m2.1 → a = a2) :
    ((l.filterMap f).map Prod.fst).Nodup := by
  induction l with
  | nil => exact List.nodup_nil
  | cons a l ih =>
    rw [List.nodup_cons] at hnd
    have ihl := ih hnd.2 (fun a1 h1 a2 h2 => hinj a1 (List.mem_cons_of_mem _ h1)
      a2 (List.mem_cons_of_mem _ h2))
    rw [List.filterMap_cons]
    rcases hfa : f a with _ | m
    · exact ihl
    · rw [List.map_cons, List.nodup_cons]
      refine ⟨?_, ihl⟩
      intro hcon
      rw [List.mem_map] at hcon
      obtain ⟨u, hu, hue⟩ := hcon
      rw [List.mem_filterMap] at hu
      obtain ⟨a2, ha2, hfa2⟩ := hu
      have := hinj a (List.mem_cons_self _ _) a2 (List.mem_cons_of_mem _ ha2)
        m u hfa hfa2 hue.symm
      rw [this] at hnd
      exact hnd.1 ha2

theorem normalMoves_fst_nodup (w h : Nat) (snap : List (Option Block)) :
    ((normalMoves w h snap).map Prod.fst).Nodup := by
  unfold normalMoves
  rw [List.map_flatMap]
  rw [List.nodup_flatMap]
  constructor
  · intro x hx
    have hxw := List.mem_range.mp hx
    apply nodup_map_fst_filterMap _ _ (List.nodup_range _)
    intro i hi j hj m m2 hm hm2 hfst
    rw [normalEntry_eq_some] at hm hm2
    obtain ⟨c, _, _, rfl⟩ := hm
    obtain ⟨c2, _, _, rfl⟩ := hm2
    simp only [] at hfst
    have : (i + 1) * w = (j + 1) * w := by omega
    have := Nat.eq_of_mul_eq_mul_right (by omega : 0 < w) this
    omega
  · have : ∀ a ∈ List.range w, ∀ b ∈ List.range w, a ≠ b →
        (Function.onFun List.Disjoint fun x =>
          List.map Prod.fst ((List.range (h - 1)).filterMap
            (fun i => normalEntry w snap x (i + 1)))) a b := by
      intro a ha b hb hab
      intro v hva hvb
      rw [List.mem_map] at hva hvb
      obtain ⟨u1, hu1, he1⟩ := hva
      obtain ⟨u2, hu2, he2⟩ := hvb
      rw [List.mem_filterMap] at hu1 hu2
      obtain ⟨i1, _, hf1⟩ := hu1
      obtain ⟨i2, _, hf2⟩ := hu2
      rw [normalEntry_eq_some] at hf1 hf2
      obtain ⟨c1, _, _, rfl⟩ := hf1
      obtain ⟨c2, _, _, rfl⟩ := hf2
      simp only [] at he1 he2
      have : (i1 + 1) * w + a = (i2 + 1) * w + b := by rw [he1, he2]
      exact hab (idx_inj (List.mem_range.mp ha) (List.mem_range.mp hb) this).1
    exact List.Pairwise.imp_of_mem (fun {a b} ha hb hne => this a ha b hb hne)
      ((List.pairwise_lt_range w).imp fun hlt => Nat.ne_of_lt hlt)

theorem garbageMoves_fst_nodup (w h : Nat) (snap : List (Option Block)) :
    ((garbageMoves w h snap).map Prod.fst).Nodup := by
  obtain ⟨hcells, hnodup, hnonempty, hdisj⟩ := findGarbageComponents_props w h snap
  unfold garbageMoves
  rw [List.map_flatMap]
  rw [List.nodup_flatMap]
  have hsub := List.filter_sublist (p := canFall w snap) (findGarbageComponents w h snap)
  constructor
  · intro comp hcomp
    have hcm : comp ∈ findGarbageComponents w h snap :=
      (List.mem_filter.mp hcomp).1
    rw [componentMoves_map_fst w snap comp (fun c hc => (hcells comp hcm c hc).2)]
    exact hnodup comp hcm
  · have hpw := hdisj.sublist hsub
    refine hpw.imp_of_mem ?_
    intro c1 c2 hc1 hc2 hrel
    have hm1 : c1 ∈ findGarbageComponents w h snap := (List.mem_filter.mp hc1).1
    have hm2 : c2 ∈ findGarbageComponents w h snap := (List.mem_filter.mp hc2).1
    unfold Function.onFun
    dsimp only
    rw [componentMoves_map_fst w snap c1 (fun c hc => (hcells c1 hm1 c hc).2),
      componentMoves_map_fst w snap c2 (fun c hc => (hcells c2 hm2 c hc).2)]
    intro v hv1 hv2
    rw [List.mem_map] at hv1 hv2
    obtain ⟨a, ha, hae⟩ := hv1
    obtain ⟨b, hb, hbe⟩ := hv2
    exact hrel a ha b hb (by rw [hae, hbe])

theorem gravityMoves_fst_nodup (w h : Nat) (snap : List (Option Block)) :
    (((normalMoves w h snap ++ garbageMoves w h snap)).map Prod.fst).Nodup := by
  rw [List.map_append, List.nodup_append]
  refine ⟨normalMoves_fst_nodup w h snap, garbageMoves_fst_nodup w h snap, ?_⟩
  intro v hv1 hv2
  rw [List.mem_map] at hv1 hv2
  obtain ⟨m1, hm1, he1⟩ := hv1
  obtain ⟨m2, hm2, he2⟩ := hv2
  have hf1 := normalMoves_facts hm1
  have hf2 := garbageMoves_facts hm2
  obtain ⟨c, hc⟩ := hf1.2.2.2.2
  obtain ⟨cr, hcr⟩ := hf2.2.2.2.1
  have : some m1.2.2 = some m2.2.2 := by
    rw [← hf1.1, ← hf2.1, he1, he2]
  rw [hc, hcr] at this
  exact absurd (Option.some.inj this) (by simp)

/-! ### The write phase of a moving gravity step -/
theorem getD_some_lt_length {l : List (Option Block)} {i : Nat} {b : Block}
    (h : l.getD i none = some b) : i < l.length := by
  by_contra hge
  rw [List.getD_eq_getElem?_getD, List.getElem?_eq_none (by omega)] at h
  exact absurd h (by simp)

/-- Pointwise description of the cells after clearing all move sources
and writing all move targets. -/
theorem writes_spec (w : Nat) (snap : List (Option Block)) (all : List (Nat × Nat × Block))
    (hfst : ((all.map Prod.fst)).Nodup)
    (hfacts : ∀ m ∈ all, snap.getD m.1 none = some m.2.2 ∧ m.2.1 + w = m.1 ∧ 1 ≤ w) :
    (∀ m ∈ all, (all.foldl (fun cs mv => cs.set mv.2.1 (some mv.2.2))
        (all.foldl (fun cs mv => cs.set mv.1 none) snap)).getD m.2.1 none = some m.2.2) ∧
    (∀ i, (∀ m ∈ all, m.2.1 ≠ i) → (∀ m ∈ all, m.1 ≠ i) →
      (all.foldl (fun cs mv => cs.set mv.2.1 (some mv.2.2))
        (all.foldl (fun cs mv => cs.set mv.1 none) snap)).getD i none
        = snap.getD i none) ∧
    (∀ i, (∀ m ∈ all, m.2.1 ≠ i) → (∃ m ∈ all, m.1 = i) →
      (all.foldl (fun cs mv => cs.set mv.2.1 (some mv.2.2))
        (all.foldl (fun cs mv => cs.set mv.1 none) snap)).getD i none = none) ∧
    (all.foldl (fun cs mv => cs.set mv.2.1 (some mv.2.2))
        (all.foldl (fun cs mv => cs.set mv.1 none) snap)).length = snap.length := by
  have hinj := List.inj_on_of_nodup_map hfst
  have hclear : all.foldl (fun cs mv => cs.set mv.1 none) snap
      = applyWrites snap (all.map (fun m => (m.1, (none : Option Block)))) := by
    unfold applyWrites
    rw [List.foldl_map]
  have hwrite : ∀ cs, all.foldl (fun cs2 mv => cs2.set mv.2.1 (some mv.2.2)) cs
      = applyWrites cs (all.map (fun m => (m.2.1, some m.2.2))) := by
    intro cs
    unfold applyWrites
    rw [List.foldl_map]
  have htos : ((all.map (fun m => (m.2.1, some m.2.2))).map Prod.fst).Nodup := by
    rw [List.map_map]
    have heq : (Prod.fst ∘ fun m : Nat × Nat × Block => (m.2.1, some m.2.2))
        = fun m : Nat × Nat × Block => m.2.1 := rfl
    rw [heq]
    refine List.Nodup.map_on ?_ (List.Nodup.of_map _ hfst)
    intro m hm m2 hm2 he
    have h1 := (hfacts m hm).2.1
    have h2 := (hfacts m2 hm2).2.1
    exact hinj hm hm2 (by omega)
  have hlenc : (all.foldl (fun cs mv => cs.set mv.1 none) snap).length = snap.length := by
    rw [hclear]
    exact applyWrites_length _ _
  refine ⟨?_, ?_, ?_, ?_⟩
  · intro m hm
    rw [hwrite, hclear]
    apply applyWrites_getD_mem _ _ _ _ htos
    · exact List.mem_map_of_mem _ hm
    · rw [applyWrites_length]
      obtain ⟨hocc, hto, hw⟩ := hfacts m hm
      have := getD_some_lt_length hocc
      omega
  · intro i hto hfrom
    rw [hwrite, hclear]
    rw [applyWrites_getD_not_mem]
    · rw [applyWrites_getD_not_mem]
      intro u hu
      rw [List.mem_map] at hu
      obtain ⟨m, hm, rfl⟩ := hu
      exact hfrom m hm
    · intro u hu
      rw [List.mem_map] at hu
      obtain ⟨m, hm, rfl⟩ := hu
      exact hto m hm
  · intro i hto hfrom
    rw [hwrite, hclear]
    rw [applyWrites_getD_not_mem]
    · apply applyWrites_getD_const
      · intro u hu
        rw [List.mem_map] at hu
        obtain ⟨m, hm, rfl⟩ := hu
        rfl
      · obtain ⟨m, hm, hmi⟩ := hfrom
        exact ⟨(m.1, none), List.mem_map_of_mem _ hm, hmi⟩
      · obtain ⟨m, hm, hmi⟩ := hfrom
        rw [← hmi]
        exact getD_some_lt_length (hfacts m hm).1
    · intro u hu
      rw [List.mem_map] at hu
      obtain ⟨m, hm, rfl⟩ := hu
      exact hto m hm
  · rw [hwrite, hclear, applyWrites_length, applyWrites_length]

/-- Combined facts of the full move list of a gravity step. -/
theorem allMoves_facts {w h : Nat} {snap : List (Option Block)} {m : Nat × Nat × Block}
    (hm : m ∈ normalMoves w h snap ++ garbageMoves w h snap) :
    snap.getD m.1 none = some m.2.2 ∧ m.2.1 + w = m.1 ∧ 1 ≤ w := by
  rcases List.mem_append.mp hm with hn | hg
  · obtain ⟨h1, h2, h3, _, _⟩ := normalMoves_facts hn
    exact ⟨h1, h2, h3⟩
  · obtain ⟨h1, h2, h3, _, _⟩ := garbageMoves_facts hg
    exact ⟨h1, h2, h3⟩

/-- A moving `apply_gravity_step`, written out. -/
theorem apply_gravity_step_moving (g : Grid) (hh : ¬ g.height < 2)
    (hne : normalMoves g.width g.height g.cells ++ garbageMoves g.width g.height g.cells
      ≠ []) :
    g.apply_gravity_step = (true, { g with cells := gravityWritten g }) := by
  unfold Grid.apply_gravity_step gravityWritten
  rw [if_neg hh]
  simp only []
  rw [if_neg]
  intro hcon
  rw [Bool.and_eq_true, List.isEmpty_iff, List.isEmpty_iff] at hcon
  rw [hcon.1, hcon.2] at hne
  exact hne rfl

/-- A non-moving `apply_gravity_step` leaves the grid unchanged. -/
theorem apply_gravity_step_false_unchanged (g : Grid)
    (hf : (g.apply_gravity_step).1 = false) : (g.apply_gravity_step).2 = g := by
  unfold Grid.apply_gravity_step at hf ⊢
  by_cases hh : g.height < 2
  · rw [if_pos hh]
  · rw [if_neg hh] at hf ⊢
    simp only [] at hf ⊢
    by_cases hcon : ((normalMoves g.width g.height g.cells).isEmpty
        && (garbageMoves g.width g.height g.cells).isEmpty) = true
    · rw [if_pos hcon]
    · rw [if_neg hcon] at hf
      exact absurd hf (by simp)

/-- A non-moving `apply_gravity_step` means: degenerate height, or no
move exists. -/
theorem apply_gravity_step_false_cases (g : Grid)
    (hf : (g.apply_gravity_step).1 = false) :
    g.height < 2 ∨ (normalMoves g.width g.height g.cells = []
      ∧ garbageMoves g.width g.height g.cells = []) := by
  unfold Grid.apply_gravity_step at hf
  by_cases hh : g.height < 2
  · exact Or.inl hh
  · rw [if_neg hh] at hf
    simp only [] at hf
    by_cases hcon : ((normalMoves g.width g.height g.cells).isEmpty
        && (garbageMoves g.width g.height g.cells).isEmpty) = true
    · rw [Bool.and_eq_true, List.isEmpty_iff, List.isEmpty_iff] at hcon
      exact Or.inr hcon
    · rw [if_neg hcon] at hf
      exact absurd hf (by simp)

/-- C2: every garbage connected-component that qualifies to fall in
`apply_gravity_step` (no cell at row 0, every cell's snapshot cell
below empty or in the same component) falls rigidly: after the step
each cell's block sits exactly one row lower, and the shifted component
has the same cell-adjacency relation — the component does not split,
and all qualifying components move in the same step. -/
theorem garbage_falls_rigidly (g : Grid) (comp : List (Nat × Nat))
    (hcomp : comp ∈ findGarbageComponents g.width g.height g.cells)
    (hfall : canFall g.width g.cells comp = true) :
    (∀ c ∈ comp,
      ((g.apply_gravity_step).2).cells.getD ((c.2 - 1) * g.width + c.1) none
        = g.cells.getD (c.2 * g.width + c.1) none) ∧
    (∀ p ∈ comp, ∀ q ∈ comp,
      (adjacentCells (p.1, p.2 - 1) (q.1, q.2 - 1) ↔ adjacentCells p q)) := by
  obtain ⟨hcells, hnodup, hnonempty, hdisj⟩ :=
    findGarbageComponents_props g.width g.height g.cells
  have hcf := canFall_iff.mp hfall
  constructor
  · intro c hc
    obtain ⟨⟨hcx, hcy⟩, cr, hgarb⟩ := hcells comp hcomp c hc
    have hy1 : c.2 ≠ 0 := (hcf c hc).1
    have hh : ¬ g.height < 2 := by omega
    have hmove : (cellIdx g.width c, ((c.2 - 1) * g.width + c.1, Block.Garbage cr))
        ∈ garbageMoves g.width g.height g.cells := by
      unfold garbageMoves
      rw [List.mem_flatMap]
      refine ⟨comp, List.mem_filter.mpr ⟨hcomp, hfall⟩, ?_⟩
      rw [mem_componentMoves]
      exact ⟨c, hc, Block.Garbage cr, hgarb, rfl⟩
    have hmem : (cellIdx g.width c, ((c.2 - 1) * g.width + c.1, Block.Garbage cr))
        ∈ normalMoves g.width g.height g.cells ++ garbageMoves g.width g.height g.cells :=
      List.mem_append_right _ hmove
    have hne : normalMoves g.width g.height g.cells
        ++ garbageMoves g.width g.height g.cells ≠ [] := by
      intro hcon
      rw [hcon] at hmem
      exact absurd hmem (List.not_mem_nil _)
    rw [apply_gravity_step_moving g hh hne]
    dsimp only
    unfold gravityWritten
    have hspec := writes_spec g.width g.cells
      (normalMoves g.width g.height g.cells ++ garbageMoves g.width g.height g.cells)
      (gravityMoves_fst_nodup g.width g.height g.cells)
      (fun m hm => allMoves_facts hm)
    have := hspec.1 _ hmem
    simp only [] at this
    rw [this]
    exact hgarb.symm
  · intro p hp q hq
    have hp1 : p.2 ≠ 0 := (hcf p hp).1
    have hq1 : q.2 ≠ 0 := (hcf q hq).1
    unfold adjacentCells
    simp only []
    constructor
    · rintro (⟨h1, h2⟩ | ⟨h1, h2⟩)
      · exact Or.inl ⟨h1, by omega⟩
      · exact Or.inr ⟨by omega, h2⟩
    · rintro (⟨h1, h2⟩ | ⟨h1, h2⟩)
      · exact Or.inl ⟨h1, by omega⟩
      · exact Or.inr ⟨by omega, h2⟩

/-- C2 witness: the 2×3 board with a garbage domino on row 1 over an
empty row: the component qualifies and both cells land one row down. -/
theorem garbage_falls_rigidly_witness :
    ([(0, 1), (1, 1)] ∈ findGarbageComponents 2 3
      (Grid.mk 2 3 [none, none, some (Block.Garbage false), some (Block.Garbage false),
        none, none]).cells) ∧
    (canFall 2 (Grid.mk 2 3 [none, none, some (Block.Garbage false),
        some (Block.Garbage false), none, none]).cells [(0, 1), (1, 1)] = true) ∧
    (∀ c ∈ [((0 : Nat), (1 : Nat)), (1, 1)],
      (((Grid.mk 2 3 [none, none, some (Block.Garbage false), some (Block.Garbage false),
          none, none]).apply_gravity_step).2).cells.getD ((c.2 - 1) * 2 + c.1) none
        = (Grid.mk 2 3 [none, none, some (Block.Garbage false), some (Block.Garbage false),
          none, none]).cells.getD (c.2 * 2 + c.1) none) := by
  refine ⟨by decide, by decide, ?_⟩
  have h := garbage_falls_rigidly
    (Grid.mk 2 3 [none, none, some (Block.Garbage false), some (Block.Garbage false),
      none, none]) [(0, 1), (1, 1)] (by decide) (by decide)
  exact h.1

/-! ### Termination of gravity: the potential argument -/
/-- `gridPot` as a sum over the occupied index set. -/
theorem gridPot_eq_filter_sum (cells : List (Option Block)) :
    gridPot cells = ∑ i ∈ (Finset.range cells.length).filter
      (fun i => (cells.getD i none).isSome = true), i := by
  unfold gridPot
  rw [Finset.sum_filter]

/-- When a move exists, the targets of a gravity step's moves refill
only cells that are themselves move sources. -/
theorem allMoves_target_occupied {w h : Nat} {snap : List (Option Block)}
    {m : Nat × Nat × Block}
    (hm : m ∈ normalMoves w h snap ++ garbageMoves w h snap)
    (hocc : (snap.getD m.2.1 none).isSome = true) :
    ∃ m2 ∈ normalMoves w h snap ++ garbageMoves w h snap, m2.1 = m.2.1 := by
  rcases List.mem_append.mp hm with hn | hg
  · obtain ⟨_, _, _, hnone, _⟩ := normalMoves_facts hn
    rw [hnone] at hocc
    exact absurd hocc (by simp)
  · obtain ⟨_, _, _, _, hf⟩ := garbageMoves_facts hg
    obtain ⟨m2, hm2, he⟩ := hf hocc
    exact ⟨m2, List.mem_append_right _ hm2, he⟩

/-- A moving gravity step strictly decreases the potential. -/
theorem gravity_step_pot_lt (g : Grid) (hmoved : (g.apply_gravity_step).1 = true) :
    gridPot ((g.apply_gravity_step).2).cells < gridPot g.cells := by
  have hh : ¬ g.height < 2 := by
    intro hcon
    unfold Grid.apply_gravity_step at hmoved
    rw [if_pos hcon] at hmoved
    exact absurd hmoved (by simp)
  have hne : normalMoves g.width g.height g.cells
      ++ garbageMoves g.width g.height g.cells ≠ [] := by
    intro hcon
    rw [List.append_eq_nil] at hcon
    have hfalse : (g.apply_gravity_step).1 = false := by
      unfold Grid.apply_gravity_step
      rw [if_neg hh]
      simp only []
      rw [if_pos (by rw [hcon.1, hcon.2]; rfl)]
    rw [hfalse] at hmoved
    exact absurd hmoved (by simp)
  rw [apply_gravity_step_moving g hh hne]
  dsimp only
  set all := normalMoves g.width g.height g.cells ++ garbageMoves g.width g.height g.cells
    with hall
  have hfacts : ∀ m ∈ all, g.cells.getD m.1 none = some m.2.2 ∧ m.2.1 + g.width = m.1 ∧
      1 ≤ g.width := fun m hm => allMoves_facts hm
  have hspec := writes_spec g.width g.cells all (gravityMoves_fst_nodup g.width g.height g.cells)
    hfacts
  obtain ⟨hw1, hw2, hw3, hw4⟩ := hspec
  obtain ⟨m0, hm0⟩ := List.exists_mem_of_ne_nil all hne
  have hwpos : 1 ≤ g.width := (hfacts m0 hm0).2.2
  set n := g.cells.length with hn
  set F : Finset Nat := (all.map Prod.fst).toFinset with hF
  set T : Finset Nat := (all.map (fun m => m.2.1)).toFinset with hT
  set occ : Finset Nat := (Finset.range n).filter
    (fun i => (g.cells.getD i none).isSome = true) with hocc
  have hmemF : ∀ i, i ∈ F ↔ ∃ m ∈ all, m.1 = i := by
    intro i
    rw [hF, List.mem_toFinset, List.mem_map]
  have hmemT : ∀ i, i ∈ T ↔ ∃ m ∈ all, m.2.1 = i := by
    intro i
    rw [hT, List.mem_toFinset, List.mem_map]
  have hFocc : F ⊆ occ := by
    intro i hi
    obtain ⟨m, hm, he⟩ := (hmemF i).mp hi
    obtain ⟨hsome, _, _⟩ := hfacts m hm
    rw [hocc, Finset.mem_filter, Finset.mem_range]
    rw [← he]
    exact ⟨getD_some_lt_length hsome, by rw [hsome]; rfl⟩
  have htlt : ∀ m ∈ all, m.2.1 < n := by
    intro m hm
    obtain ⟨hsome, hplus, hw⟩ := hfacts m hm
    have := getD_some_lt_length hsome
    omega
  have hoccW : (Finset.range (gravityWritten g).length).filter
      (fun i => ((gravityWritten g).getD i none).isSome = true) = T ∪ (occ \ F) := by
    have hlenW : (gravityWritten g).length = n := by
      rw [hn]
      unfold gravityWritten
      rw [← hall]
      exact hw4
    apply Finset.ext
    intro i
    rw [Finset.mem_filter, Finset.mem_range, hlenW, Finset.mem_union, Finset.mem_sdiff]
    have hWT : ∀ m ∈ all, m.2.1 = i → ((gravityWritten g).getD i none).isSome = true := by
      intro m hm he
      have := hw1 m hm
      unfold gravityWritten
      rw [← hall, ← he, this]
      rfl
    constructor
    · rintro ⟨hin, hsome⟩
      by_cases ht : ∃ m ∈ all, m.2.1 = i
      · exact Or.inl ((hmemT i).mpr ht)
      · push_neg at ht
        by_cases hf : ∃ m ∈ all, m.1 = i
        · exfalso
          have := hw3 i (fun m hm => ht m hm) hf
          unfold gravityWritten at hsome
          rw [← hall] at hsome
          rw [this] at hsome
          exact absurd hsome (by simp)
        · push_neg at hf
          have := hw2 i (fun m hm => ht m hm) (fun m hm => hf m hm)
          unfold gravityWritten at hsome
          rw [← hall] at hsome
          rw [this] at hsome
          refine Or.inr ⟨?_, ?_⟩
          · rw [hocc, Finset.mem_filter, Finset.mem_range]
            exact ⟨hin, hsome⟩
          · intro hcon
            obtain ⟨m, hm, he⟩ := (hmemF i).mp hcon
            exact hf m hm he
    · rintro (ht | ⟨hoc, hnf⟩)
      · obtain ⟨m, hm, he⟩ := (hmemT i).mp ht
        refine ⟨by rw [← he]; exact htlt m hm, hWT m hm he⟩
      · rw [hocc, Finset.mem_filter, Finset.mem_range] at hoc
        refine ⟨hoc.1, ?_⟩
        by_cases ht2 : ∃ m ∈ all, m.2.1 = i
        · obtain ⟨m, hm, he⟩ := ht2
          exact hWT m hm he
        · push_neg at ht2
          have hnf2 : ∀ m ∈ all, m.1 ≠ i := by
            intro m hm hcon
            exact hnf ((hmemF i).mpr ⟨m, hm, hcon⟩)
          have := hw2 i (fun m hm => ht2 m hm) hnf2
          unfold gravityWritten
          rw [← hall, this]
          exact hoc.2
  have hTim : T = F.image (fun a => a - g.width) := by
    apply Finset.ext
    intro t
    rw [hmemT, Finset.mem_image]
    constructor
    · rintro ⟨m, hm, he⟩
      refine ⟨m.1, (hmemF m.1).mpr ⟨m, hm, rfl⟩, ?_⟩
      obtain ⟨_, hplus, _⟩ := hfacts m hm
      omega
    · rintro ⟨f, hf, he⟩
      obtain ⟨m, hm, hme⟩ := (hmemF f).mp hf
      refine ⟨m, hm, ?_⟩
      obtain ⟨_, hplus, _⟩ := hfacts m hm
      omega
  have hFw : ∀ f ∈ F, g.width ≤ f := by
    intro f hf
    obtain ⟨m, hm, he⟩ := (hmemF f).mp hf
    obtain ⟨_, hplus, _⟩ := hfacts m hm
    omega
  have hdisjTF : Disjoint T (occ \ F) := by
    rw [Finset.disjoint_left]
    intro t ht hsd
    rw [Finset.mem_sdiff] at hsd
    obtain ⟨m, hm, he⟩ := (hmemT t).mp ht
    rw [hocc, Finset.mem_filter] at hsd
    have hso : (g.cells.getD m.2.1 none).isSome = true := by
      rw [he]
      exact hsd.1.2
    obtain ⟨m2, hm2, he2⟩ := allMoves_target_occupied hm hso
    exact hsd.2 ((hmemF t).mpr ⟨m2, hm2, by rw [he2, he]⟩)
  have hsumT : (∑ i ∈ T, i) + g.width * F.card = ∑ i ∈ F, i := by
    rw [hTim, Finset.sum_image (fun a ha b hb hab => by
      have := hFw a ha
      have := hFw b hb
      omega)]
    have h1 : ∀ f ∈ F, (f - g.width) + g.width = f := by
      intro f hf
      have := hFw f hf
      omega
    calc (∑ f ∈ F, (f - g.width)) + g.width * F.card
        = (∑ f ∈ F, (f - g.width)) + ∑ _f ∈ F, g.width := by
          rw [Finset.sum_const, smul_eq_mul, Nat.mul_comm]
      _ = ∑ f ∈ F, ((f - g.width) + g.width) := by rw [Finset.sum_add_distrib]
      _ = ∑ f ∈ F, f := Finset.sum_congr rfl h1
  have hsumsdiff : (∑ i ∈ occ \ F, i) + ∑ i ∈ F, i = ∑ i ∈ occ, i :=
    Finset.sum_sdiff hFocc
  have hFpos : 0 < F.card := by
    rw [Finset.card_pos]
    exact ⟨m0.1, (hmemF m0.1).mpr ⟨m0, hm0, rfl⟩⟩
  have hkey : gridPot (gravityWritten g) + g.width * F.card = gridPot g.cells := by
    rw [gridPot_eq_filter_sum, gridPot_eq_filter_sum, hoccW,
      Finset.sum_union hdisjTF]
    rw [hocc] at hsumsdiff ⊢
    rw [hn] at hsumsdiff ⊢
    omega
  have : 0 < g.width * F.card := Nat.mul_pos (by omega) hFpos
  omega

/-- With fuel exceeding the potential, `gravityIter` reaches a state
where `apply_gravity_step` reports no movement. -/
theorem gravityIter_settles :
    ∀ (fuel : Nat) (g : Grid), gridPot g.cells < fuel →
      ((gravityIter fuel g).apply_gravity_step).1 = false := by
  intro fuel
  induction fuel with
  | zero => intro g hcon; omega
  | succ fuel ih =>
    intro g hlt
    unfold gravityIter
    by_cases hm : (g.apply_gravity_step).1 = true
    · rw [if_pos hm]
      apply ih
      have := gravity_step_pot_lt g hm
      omega
    · rw [if_neg hm]
      cases hv : (g.apply_gravity_step).1
      · rfl
      · exact absurd hv hm

/-- Any surplus of gravity iterations beyond the potential is
irrelevant: `apply_gravity`'s fuel is enough. -/
theorem gravityIter_fuel_enough :
    ∀ (fuel : Nat) (extra : Nat) (g : Grid), gridPot g.cells < fuel →
      gravityIter (fuel + extra) g = gravityIter fuel g := by
  intro fuel
  induction fuel with
  | zero => intro extra g hcon; omega
  | succ fuel ih =>
    intro extra g hlt
    have h1 : fuel + 1 + extra = (fuel + extra) + 1 := by omega
    rw [h1]
    show (if (g.apply_gravity_step).1 = true
        then gravityIter (fuel + extra) (g.apply_gravity_step).2 else g)
      = (if (g.apply_gravity_step).1 = true
        then gravityIter fuel (g.apply_gravity_step).2 else g)
    by_cases hm : (g.apply_gravity_step).1 = true
    · rw [if_pos hm, if_pos hm]
      apply ih
      have := gravity_step_pot_lt g hm
      omega
    · rw [if_neg hm, if_neg hm]

/-! ### Claim C1 -/
/-- C1: iterating `apply_gravity_step` until it reports no movement
terminates (`gridPot g.cells + 1` iterations always suffice, because a
moving step strictly decreases `gridPot`); in the resulting board every
normal block is at row 0 or sits on a non-empty cell, and the result is
a fixed point: one further `apply_gravity_step` returns false and
leaves every cell unchanged. -/
theorem apply_gravity_settles (g : Grid) :
    (∀ x, x < (g.apply_gravity).width → ∀ y, y < (g.apply_gravity).height → ∀ c,
      (g.apply_gravity).get x y = some (Block.Normal c) →
      y = 0 ∨ ((g.apply_gravity).get x (y - 1)).isSome = true) ∧
    ((g.apply_gravity).apply_gravity_step.1 = false) ∧
    ((g.apply_gravity).apply_gravity_step.2 = g.apply_gravity) ∧
    (∀ extra, gravityIter (gridPot g.cells + 1 + extra) g = g.apply_gravity) := by
  have hfalse : ((g.apply_gravity).apply_gravity_step).1 = false := by
    unfold Grid.apply_gravity
    exact gravityIter_settles (gridPot g.cells + 1) g (by omega)
  refine ⟨?_, hfalse, apply_gravity_step_false_unchanged _ hfalse, fun extra => ?_⟩
  case refine_2 =>
    unfold Grid.apply_gravity
    exact gravityIter_fuel_enough (gridPot g.cells + 1) extra g (by omega)
  intro x hx y hy c hget
  by_cases hy0 : y = 0
  · exact Or.inl hy0
  · right
    rcases apply_gravity_step_false_cases _ hfalse with hlt | ⟨hnm, _⟩
    · omega
    · by_contra hb
      rw [Option.not_isSome_iff_eq_none] at hb
      have hmv : normalEntry (g.apply_gravity).width (g.apply_gravity).cells x y
          = some (y * (g.apply_gravity).width + x,
            ((y - 1) * (g.apply_gravity).width + x, Block.Normal c)) := by
        rw [normalEntry_eq_some]
        refine ⟨c, ?_, ?_, rfl⟩
        · exact hget
        · exact hb
      have hmem : (y * (g.apply_gravity).width + x,
          ((y - 1) * (g.apply_gravity).width + x, Block.Normal c))
          ∈ normalMoves (g.apply_gravity).width (g.apply_gravity).height
            (g.apply_gravity).cells := by
        rw [mem_normalMoves]
        exact ⟨x, hx, y, by omega, hy, hmv⟩
      rw [hnm] at hmem
      exact absurd hmem (List.not_mem_nil _)

/-- C1 witness: a 1×3 board with a single normal block at the top
settles with the block at the bottom, and the settled board is a fixed
point. -/
theorem apply_gravity_settles_witness :
    ((Grid.mk 1 3 [none, none, some (Block.Normal BlockColor.Red)]).apply_gravity
      = Grid.mk 1 3 [some (Block.Normal BlockColor.Red), none, none]) ∧
    (∀ x, x < ((Grid.mk 1 3 [none, none,
        some (Block.Normal BlockColor.Red)]).apply_gravity).width →
      ∀ y, y < ((Grid.mk 1 3 [none, none,
        some (Block.Normal BlockColor.Red)]).apply_gravity).height → ∀ c,
      ((Grid.mk 1 3 [none, none,
        some (Block.Normal BlockColor.Red)]).apply_gravity).get x y
          = some (Block.Normal c) →
      y = 0 ∨ (((Grid.mk 1 3 [none, none,
        some (Block.Normal BlockColor.Red)]).apply_gravity).get x (y - 1)).isSome = true) ∧
    (((Grid.mk 1 3 [none, none,
        some (Block.Normal BlockColor.Red)]).apply_gravity).apply_gravity_step.1 = false) ∧
    (((Grid.mk 1 3 [none, none,
        some (Block.Normal BlockColor.Red)]).apply_gravity).apply_gravity_step.2
      = (Grid.mk 1 3 [none, none, some (Block.Normal BlockColor.Red)]).apply_gravity) := by
  have h := apply_gravity_settles (Grid.mk 1 3 [none, none, some (Block.Normal BlockColor.Red)])
  exact ⟨by decide, h.1, h.2.1, h.2.2.1⟩

/-! ### The fuel of the loops is never exhausted

The flood-fill loop's measure `2 * countFalse visited + stack.length`
strictly decreases each iteration, so `floodFuel` (which exceeds it at
every call site) computes the loop's true fixpoint: adding fuel changes
nothing.  Likewise `gridPot g.cells + 1` iterations suffice for
`apply_gravity`. -/
theorem lt_length_of_getD_true_false {l : List Bool} {i : Nat}
    (h : l.getD i true = false) : i < l.length := by
  by_contra hge
  rw [List.getD_eq_getElem?_getD, List.getElem?_eq_none (by omega)] at h
  exact absurd h (by simp)

theorem getElem_false_of_getD {l : List Bool} {i : Nat} (hi : i < l.length)
    (h : l.getD i true = false) : l[i] = false := by
  rw [List.getD_eq_getElem?_getD, List.getElem?_eq_getElem hi] at h
  exact h

theorem countFalse_set_true {l : List Bool} {i : Nat} (hi : i < l.length)
    (hf : l[i] = false) : countFalse (l.set i true) + 1 = countFalse l := by
  have hpos : 0 < l.count false := by
    rw [List.count_pos_iff]
    exact hf ▸ List.getElem_mem hi
  unfold countFalse
  rw [List.count_set _ _ _ _ hi, hf]
  simp
  omega

theorem visitNb_measure (w : Nat) (snap : List (Option Block))
    (st : List Bool × List (Nat × Nat)) (n : Nat × Nat × Bool) :
    2 * countFalse (visitNb w snap st n).1 + (visitNb w snap st n).2.length
      ≤ 2 * countFalse st.1 + st.2.length := by
  unfold visitNb
  by_cases hok : n.2.2 = true
  · rw [if_pos hok]
    simp only []
    by_cases hvis : st.1.getD (n.2.1 * w + n.1) true = true
    · rw [if_pos hvis]
    · rw [if_neg hvis]
      have hvf : st.1.getD (n.2.1 * w + n.1) true = false := by
        cases hv : st.1.getD (n.2.1 * w + n.1) true
        · rfl
        · exact absurd hv hvis
      rcases hsnap : snap.getD (n.2.1 * w + n.1) none with _ | b
      · exact le_refl _
      · cases b with
        | Normal col => exact le_refl _
        | Garbage cr =>
          simp only [List.length_cons]
          have hi := lt_length_of_getD_true_false hvf
          have hfe := getElem_false_of_getD hi hvf
          have := countFalse_set_true hi hfe
          omega
  · rw [if_neg hok]

theorem visitNb_length (w : Nat) (snap : List (Option Block))
    (st : List Bool × List (Nat × Nat)) (n : Nat × Nat × Bool) :
    (visitNb w snap st n).1.length = st.1.length := by
  unfold visitNb
  by_cases hok : n.2.2 = true
  · rw [if_pos hok]
    simp only []
    by_cases hvis : st.1.getD (n.2.1 * w + n.1) true = true
    · rw [if_pos hvis]
    · rw [if_neg hvis]
      rcases hsnap : snap.getD (n.2.1 * w + n.1) none with _ | b
      · rfl
      · cases b with
        | Normal col => rfl
        | Garbage cr => exact List.length_set _ _ _
  · rw [if_neg hok]

theorem foldl_visitNb_measure (w : Nat) (snap : List (Option Block)) :
    ∀ (l : List (Nat × Nat × Bool)) (st : List Bool × List (Nat × Nat)),
    2 * countFalse ((l.foldl (visitNb w snap) st).1)
      + (l.foldl (visitNb w snap) st).2.length
      ≤ 2 * countFalse st.1 + st.2.length := by
  intro l
  induction l with
  | nil => intro st; exact le_refl _
  | cons n l ih =>
    intro st
    rw [List.foldl_cons]
    exact le_trans (ih _) (visitNb_measure w snap st n)

theorem foldl_visitNb_length (w : Nat) (snap : List (Option Block)) :
    ∀ (l : List (Nat × Nat × Bool)) (st : List Bool × List (Nat × Nat)),
    ((l.foldl (visitNb w snap) st).1).length = st.1.length := by
  intro l
  induction l with
  | nil => intro st; rfl
  | cons n l ih =>
    intro st
    rw [List.foldl_cons, ih _, visitNb_length]

/-- Enough fuel makes one more unit of fuel irrelevant. -/
theorem floodLoop_fuel_mono (w h : Nat) (snap : List (Option Block)) :
    ∀ (fuel : Nat) (visited : List Bool) (stack comp : List (Nat × Nat)),
    2 * countFalse visited + stack.length ≤ fuel →
    floodLoop w h snap (fuel + 1) visited stack comp
      = floodLoop w h snap fuel visited stack comp := by
  intro fuel
  induction fuel with
  | zero =>
    intro visited stack comp hm
    have : stack = [] := by
      cases stack with
      | nil => rfl
      | cons a l => simp at hm
    subst this
    rfl
  | succ fuel ih =>
    intro visited stack comp hm
    cases stack with
    | nil => rfl
    | cons cell rest =>
      show floodLoop w h snap (fuel + 1 + 1) visited (cell :: rest) comp
        = floodLoop w h snap (fuel + 1) visited (cell :: rest) comp
      have hstep : ∀ f : Nat, floodLoop w h snap (f + 1) visited (cell :: rest) comp
          = floodLoop w h snap f
            ((neighborList w h cell).foldl (visitNb w snap) (visited, rest)).1
            ((neighborList w h cell).foldl (visitNb w snap) (visited, rest)).2
            (comp ++ [cell]) := by
        intro f
        simp only [floodLoop]
      rw [hstep (fuel + 1), hstep fuel]
      apply ih
      have hms := foldl_visitNb_measure w snap (neighborList w h cell) (visited, rest)
      dsimp only at hms
      simp only [List.length_cons] at hm
      omega

/-- Any surplus of fuel beyond the measure is irrelevant. -/
theorem floodLoop_fuel_enough (w h : Nat) (snap : List (Option Block)) :
    ∀ (extra fuel : Nat) (visited : List Bool) (stack comp : List (Nat × Nat)),
    2 * countFalse visited + stack.length ≤ fuel →
    floodLoop w h snap (fuel + extra) visited stack comp
      = floodLoop w h snap fuel visited stack comp := by
  intro extra
  induction extra with
  | zero => intro fuel visited stack comp _; rfl
  | succ extra ih =>
    intro fuel visited stack comp hm
    have h1 : fuel + (extra + 1) = (fuel + extra) + 1 := by omega
    rw [h1, floodLoop_fuel_mono w h snap (fuel + extra) visited stack comp (by omega)]
    exact ih fuel visited stack comp hm

/-- `floodFuel` is enough at every call site of the component scan:
with a visited array no longer than the snapshot, adding fuel beyond
`floodFuel snap` does not change the flood fill's result. -/
theorem scan_floodFuel_enough (w h : Nat) (snap : List (Option Block))
    (visited : List Bool) (p : Nat × Nat) (extra : Nat)
    (hv : visited.length ≤ snap.length) :
    floodLoop w h snap (floodFuel snap + extra) visited [p] []
      = floodLoop w h snap (floodFuel snap) visited [p] [] := by
  apply floodLoop_fuel_enough
  have hcf : countFalse visited ≤ visited.length := List.count_le_length _ _
  unfold floodFuel
  simp only [List.length_cons, List.length_nil]
  omega

end TetanusAttack

